import Mathlib

/-!
# junos_exporter: session manager, RPC client and alarm collector

A shallow embedding of

* `pkg/connector/connection.go` (the `SSHConnection` session manager),
* `pkg/rpc/client.go` (the `Client` facade),
* `pkg/features/alarm/collector.go` and `rpc.go` (the alarm collector),

followed by theorems about them.

Modelling conventions.

* Go pointers that may be nil are `Option`s of opaque handles (`Nat`).
* A Go `error` is an `Option GoError` (`none` is `nil`); a `[]byte` is a
  `List UInt8` (the nil slice is `[]`).
* Calls into libraries (ssh, netconf, time) are answered by an `Env`
  record that is given per call; every such call is also written into a
  trace of `Event`s, in program order, so that theorems can speak about
  which external calls happened and with which arguments.
* The mutex `mu` is not modelled: the functions are the sequential
  behaviour of the critical sections.
* The decoder of `encoding/xml` is modelled as far as decoding the reply
  envelope runs it (`xmlUnmarshalReply`); the decoder for the targets of
  the collectors stays a parameter.
-/

namespace JunosExporter

/-! ## Common types -/

/-- Byte slices. -/
abbrev Bytes := List UInt8

/-- Go error values that the code under study creates, wraps or compares. -/
inductive GoError where
  /-- The sentinel `io.EOF`. -/
  | eof
  /-- The sentinel `context.DeadlineExceeded`. -/
  | deadlineExceeded
  /-- A value made by `errors.New(msg)`, or any other library error. -/
  | new (msg : String)
  /-- A value made by `errors.Wrap(cause, msg)`. -/
  | wrap (cause : GoError) (msg : String)
  deriving DecidableEq, Repr

/-- External calls and outputs, in the order the program performs them. -/
inductive Event where
  /-- Entry of `SSHConnection.RunCommand` with its argument. -/
  | runCommand (cmd : String)
  /-- The call `c.client.NewSession()`. -/
  | newSession
  /-- The call `session.Run(cmd)`. -/
  | sessionRun (cmd : String)
  /-- The deferred `session.Close()`. -/
  | sessionClose
  /-- The call `ncssh.NewTransport(c.client)`. -/
  | newTransport
  /-- The call `netconf.Open(t)`. -/
  | netconfOpen (t : Nat)
  /-- The call `c.netconfsession.Do(ctx, msg)` with `msg.Operation`. -/
  | netconfDo (session : Nat) (operation : String)
  /-- The call `c.netconfsession.Close(ctx)`. -/
  | netconfClose (session : Nat)
  /-- Output of `fmt.Println`. -/
  | println (line : String)
  /-- The call `c.conn.Close()`. -/
  | connClose (conn : Nat)
  /-- The call `c.client.Close()`. -/
  | clientClose (client : Nat)
  /-- The send `c.done <- struct{}{}`. -/
  | doneSend
  /-- The call `log.Printf(format, host, operand)`; the operand is a
  string or a byte slice converted to one. -/
  | logPrintf (format : String) (host : String) (operand : String ⊕ Bytes)
  deriving DecidableEq, Repr

/-! ## pkg/connector/connection.go -/

/-- Device information; only `Host` is read by the code under study. -/
structure Device where
  Host : String
  deriving DecidableEq, Repr

/-- The struct `SSHConnection`. `mu` and `done` carry no data that the
sequential model reads; sends on `done` appear in the trace. -/
structure SSHConnection where
  device : Device
  client : Option Nat
  conn : Option Nat
  lastUsed : Nat
  netconf : Bool
  netconfsession : Option Nat
  deriving DecidableEq, Repr

/-- What the libraries answer during one call of `RunCommand`. -/
structure Env where
  /-- Value of `time.Now()`. -/
  now : Nat
  /-- Result of `c.client.NewSession()`: a session or an error. -/
  newSession : Except GoError Nat
  /-- Result of `session.Run(cmd)`: the bytes written to `Stdout`, and the error. -/
  run : String → Bytes × Option GoError
  /-- Result of `ncssh.NewTransport(c.client)`. -/
  newTransport : Except GoError Nat
  /-- Result of `netconf.Open(t)`; on error the library returns a nil session. -/
  netconfOpen : Nat → Except GoError Nat
  /-- Result of `session.Do(ctx, msg)` under the 15 second deadline:
  `reply.Body` or the error (`deadlineExceeded` when the deadline passes). -/
  netconfDo : Nat → String → Except GoError Bytes

/-- Result of one manager operation: returned bytes, returned error,
the manager afterwards, and the external calls made. -/
structure Outcome where
  out : Bytes
  err : Option GoError
  conn : SSHConnection
  trace : List Event

/-- The method `RunCommandSSH`. -/
def SSHConnection.RunCommandSSH (c : SSHConnection) (env : Env) (cmd : String) : Outcome :=
  let c := { c with lastUsed := env.now }
  match c.client with
  | none => ⟨[], some (GoError.new "not connected"), c, []⟩
  | some _ =>
    match env.newSession with
    | Except.error err =>
      ⟨[], some (GoError.wrap err "could not open session"), c, [Event.newSession]⟩
    | Except.ok _ =>
      match env.run cmd with
      | (_, some err) =>
        ⟨[], some (GoError.wrap err "could not run command"), c,
          [Event.newSession, Event.sessionRun cmd, Event.sessionClose]⟩
      | (b, none) =>
        ⟨b, none, c, [Event.newSession, Event.sessionRun cmd, Event.sessionClose]⟩

/-- The part of `RunCommandNetconf` after the session is known to be
`s` (lines 93 to 112): build the message, `Do` it, handle the error. -/
def SSHConnection.netconfRequest (c : SSHConnection) (env : Env) (s : Nat) (cmd : String)
    (pre : List Event) : Outcome :=
  match env.netconfDo s cmd with
  | Except.error err =>
    if err = GoError.eof then
      ⟨[], some (GoError.wrap err "could not run command"),
        { c with netconfsession := none },
        pre ++ [Event.netconfDo s cmd, Event.println "Error - Closing", Event.netconfClose s]⟩
    else
      ⟨[], some (GoError.wrap err "could not run command"), c, pre ++ [Event.netconfDo s cmd]⟩
  | Except.ok body => ⟨body, none, c, pre ++ [Event.netconfDo s cmd]⟩

/-- The method `RunCommandNetconf`. -/
def SSHConnection.RunCommandNetconf (c : SSHConnection) (env : Env) (cmd : String) : Outcome :=
  match c.client with
  | none => ⟨[], some (GoError.new "not connected"), c, []⟩
  | some _ =>
    match c.netconfsession with
    | none =>
      match env.newTransport with
      | Except.error err =>
        ⟨[], some (GoError.wrap err "could not create netconf transport"), c,
          [Event.newTransport]⟩
      | Except.ok t =>
        match env.netconfOpen t with
        | Except.error err =>
          ⟨[], some (GoError.wrap err "could not open netconf session"),
            { c with netconfsession := none }, [Event.newTransport, Event.netconfOpen t]⟩
        | Except.ok s =>
          SSHConnection.netconfRequest { c with netconfsession := some s } env s cmd
            [Event.newTransport, Event.netconfOpen t]
    | some s => SSHConnection.netconfRequest c env s cmd []

/-- The method `RunCommand`; the first trace entry records the call itself. -/
def SSHConnection.RunCommand (c : SSHConnection) (env : Env) (cmd : String) : Outcome :=
  let r := if c.netconf then c.RunCommandNetconf env cmd else c.RunCommandSSH env cmd
  { r with trace := Event.runCommand cmd :: r.trace }

/-- The method `isConnected`. -/
def SSHConnection.isConnected (c : SSHConnection) : Bool :=
  c.conn.isSome

/-- The method `terminate`; `none` is the nil dereference of `c.conn.Close()`
when `conn` is nil. -/
def SSHConnection.terminate (c : SSHConnection) : Option (SSHConnection × List Event) :=
  match c.conn with
  | none => none
  | some k => some ({ c with client := none, conn := none }, [Event.connClose k])

/-- The method `close`. -/
def SSHConnection.close (c : SSHConnection) : SSHConnection × List Event :=
  let pre := match c.client with
    | some k => [Event.clientClose k]
    | none => []
  ({ c with conn := none, client := none }, pre ++ [Event.doneSend])

/-- The method `Host`. -/
def SSHConnection.Host (c : SSHConnection) : String :=
  c.device.Host

/-- Number of session factory invocations (`ncssh.NewTransport`) in a trace. -/
def factoryCalls (tr : List Event) : Nat :=
  tr.count Event.newTransport

/-- The operations of the session manager. -/
inductive Op where
  | runCommand (env : Env) (cmd : String)
  | terminate
  | close

/-- An operation that is a call of `RunCommand`. -/
def Op.isRunCommand : Op → Bool
  | Op.runCommand _ _ => true
  | _ => false

/-- One operation on the manager; `none` when the operation crashes. -/
def SSHConnection.step (c : SSHConnection) : Op → Option (SSHConnection × List Event)
  | Op.runCommand env cmd => some ((c.RunCommand env cmd).conn, (c.RunCommand env cmd).trace)
  | Op.terminate => c.terminate
  | Op.close => some c.close

/-- A sequence of operations, left to right; the traces are concatenated. -/
def SSHConnection.runOps (c : SSHConnection) : List Op → Option (SSHConnection × List Event)
  | [] => some (c, [])
  | op :: ops =>
    match c.step op with
    | none => none
    | some (c1, tr1) =>
      match SSHConnection.runOps c1 ops with
      | none => none
      | some (c2, tr2) => some (c2, tr1 ++ tr2)

/-- The predicate "rpcSession is non-null only if transport is non-null". -/
def SSHConnection.sessionNeedsTransport (c : SSHConnection) : Prop :=
  c.netconfsession ≠ none → c.client ≠ none

instance (c : SSHConnection) : Decidable c.sessionNeedsTransport := by
  unfold SSHConnection.sessionNeedsTransport; infer_instance

/-! ## pkg/rpc/client.go -/

/-- The library function `fmt.Sprintf` for formats whose verbs are `%s`
(with string operands) and `%%`: the format is scanned once, each `%s`
is replaced by the next operand, and operands are not scanned. Calls in
the code under study pass as many operands as the format has verbs. -/
def sprintfChars : List Char → List String → List Char
  | [], _ => []
  | '%' :: 's' :: rest, a :: args => a.toList ++ sprintfChars rest args
  | '%' :: 's' :: rest, [] => "%!s(MISSING)".toList ++ sprintfChars rest []
  | '%' :: '%' :: rest, args => '%' :: sprintfChars rest args
  | ch :: rest, args => ch :: sprintfChars rest args

/-- The string made by `fmt.Sprintf(format, args...)`. -/
def fmtSprintf (format : String) (args : List String) : String :=
  String.mk (sprintfChars format.toList args)

/-- The library function `bytes.ReplaceAll(s, old, new)` for a non-empty
`old`: occurrences of `old` are found left to right without overlap and
each is replaced by `new`. The counter is the number of bytes of the
current occurrence still to be dropped. -/
def bytesReplaceFrom (old new : Bytes) : Nat → Bytes → Bytes
  | _, [] => []
  | skip + 1, _ :: rest => bytesReplaceFrom old new skip rest
  | 0, b :: rest =>
    if old.isPrefixOf (b :: rest) then new ++ bytesReplaceFrom old new (old.length - 1) rest
    else b :: bytesReplaceFrom old new 0 rest

/-- The call `bytes.ReplaceAll(s, old, new)`. -/
def bytesReplaceAll (s old new : Bytes) : Bytes :=
  bytesReplaceFrom old new 0 s

/-- The struct `Client`; `conn` is the manager the client points to, so
operations return the client with the manager as they leave it. -/
structure Client where
  conn : SSHConnection
  debug : Bool
  satellite : Bool
  netconf : Bool

/-- The type `ClientOption`. -/
abbrev ClientOption := Client → Client

/-- The option `WithDebug`. -/
def WithDebug : ClientOption := fun cl => { cl with debug := true }

/-- The option `WithSatellite`. -/
def WithSatellite : ClientOption := fun cl => { cl with satellite := true }

/-- The option `WithNetconf`. -/
def WithNetconf : ClientOption := fun cl => { cl with netconf := true }

/-- The function `NewClient`. -/
def NewClient (ssh : SSHConnection) (opts : List ClientOption) : Client :=
  opts.foldl (fun cl opt => opt cl) ⟨ssh, false, false, false⟩

/-- The struct `rpcReply`: the element named `rpc-reply` and its inner XML. -/
structure rpcReply where
  XMLName : String
  Body : Bytes
  deriving DecidableEq, Repr

/-- The type `Parser`: a function of the bytes that returns an error; the
object the function decodes into is passed through as a state. -/
abbrev Parser (σ : Type) := Bytes → σ → Option GoError × σ

/-- Result of one client operation: returned error, the decode target,
the client afterwards, and the external calls made. -/
structure ParseOutcome (σ : Type) where
  err : Option GoError
  target : σ
  client : Client
  trace : List Event

/-- The method `RunCommandAndParseWithParser`. The decoder of the reply
envelope, `xml.Unmarshal(b, &reply)` for a `*rpcReply`, is library code
and is the parameter `unmarshalReply`; `xmlUnmarshalReply` below is the
model of it. -/
def Client.RunCommandAndParseWithParser {σ : Type} (c : Client)
    (unmarshalReply : Bytes → Except GoError rpcReply) (env : Env) (cmd : String)
    (parser : Parser σ) (target : σ) : ParseOutcome σ :=
  let log1 := if c.debug then
      [Event.logPrintf "Running command on %s: %s\n" c.conn.Host (Sum.inl cmd)] else []
  let r := if c.netconf then c.conn.RunCommand env cmd
    else c.conn.RunCommand env (fmtSprintf "%s | display xml" [cmd])
  let c1 : Client := { c with conn := r.conn }
  match r.err with
  | some err => ⟨some err, target, c1, log1 ++ r.trace⟩
  | none =>
    let log2 := if c.debug then
        [Event.logPrintf "Output for %s: %s\n" r.conn.Host (Sum.inr r.out)] else []
    if !c.netconf then
      match unmarshalReply r.out with
      | Except.error err => ⟨some err, target, c1, log1 ++ r.trace ++ log2⟩
      | Except.ok reply =>
        ⟨(parser reply.Body target).1, (parser reply.Body target).2, c1,
          log1 ++ r.trace ++ log2⟩
    else
      ⟨(parser r.out target).1, (parser r.out target).2, c1, log1 ++ r.trace ++ log2⟩

/-- The method `RunCommandAndParse`. The structured decoder
`xml.Unmarshal(b, obj)` is library code and is the parameter
`xmlUnmarshal`; `obj` is the decode target. -/
def Client.RunCommandAndParse {σ : Type} (c : Client)
    (unmarshalReply : Bytes → Except GoError rpcReply) (xmlUnmarshal : Parser σ)
    (env : Env) (cmd : String) (obj : σ) : ParseOutcome σ :=
  if c.netconf then
    c.RunCommandAndParseWithParser unmarshalReply env cmd
      (fun b => xmlUnmarshal (bytesReplaceAll b [10] [])) obj
  else
    c.RunCommandAndParseWithParser unmarshalReply env cmd (fun b => xmlUnmarshal b) obj

/-- The method `IsSatelliteEnabled`. -/
def Client.IsSatelliteEnabled (c : Client) : Bool := c.satellite

/-- The method `IsNetconfEnabled`. -/
def Client.IsNetconfEnabled (c : Client) : Bool := c.netconf

/-- The arguments of the `RunCommand` calls recorded in a trace. -/
def runCommandArgs : List Event → List String
  | [] => []
  | Event.runCommand cmd :: rest => cmd :: runCommandArgs rest
  | _ :: rest => runCommandArgs rest

/-! ## encoding/xml (library), as far as `xml.Unmarshal` into `*rpcReply` runs it

The decoder is in its default, strict mode. Error values carry the kind of
the library's message; the line number and the offending text are left out.
Name spaces are resolved by the library after the names are compared and
do not change the result; they are left out. The model does not cover
names with bytes outside ASCII, directives and the XML declaration; for
those it says so in its error. -/

/-- A syntax error of the decoder. The library adds the line number to
the message and, for some kinds, the offending text; both are left out. -/
def xmlError (msg : String) : GoError :=
  GoError.new ("XML syntax error: " ++ msg)

/-- The error of `mustgetc` at the end of the input. -/
def unexpectedEOF : GoError :=
  xmlError "unexpected EOF"

/-- The answer of the model for input it does not cover. -/
def notModelled (what : String) : GoError :=
  GoError.new ("encoding/xml model: " ++ what ++ " not modelled")

/-- The function `isNameByte`. -/
def isNameByte (c : UInt8) : Bool :=
  (65 ≤ c && c ≤ 90) || (97 ≤ c && c ≤ 122) || (48 ≤ c && c ≤ 57) ||
    c == 95 || c == 58 || c == 46 || c == 45

/-- The ASCII part of the range table `first` of `isName`: a letter, `_` or `:`. -/
def isNameStart (c : UInt8) : Bool :=
  (65 ≤ c && c ≤ 90) || (97 ≤ c && c ≤ 122) || c == 95 || c == 58

/-- The bytes `readName` accepts: name bytes and every byte outside ASCII. -/
def isNameOrHigh (c : UInt8) : Bool :=
  128 ≤ c || isNameByte c

/-- The bytes `space` skips. -/
def isSpaceByte (c : UInt8) : Bool :=
  c == 32 || c == 13 || c == 10 || c == 9

/-- The method `space`: the input after the white space. -/
def skipSpace (input : Bytes) : Bytes :=
  input.dropWhile isSpaceByte

/-- The method `readName`: the longest run of name bytes and the input
after it; `none` when the next byte starts no name. Reaching the end of
the input while reading is an error. -/
def readName (input : Bytes) : Except GoError (Option (Bytes × Bytes)) :=
  if input = [] then Except.error unexpectedEOF
  else if input.takeWhile isNameOrHigh = [] then Except.ok none
  else if input.dropWhile isNameOrHigh = [] then Except.error unexpectedEOF
  else Except.ok (some (input.takeWhile isNameOrHigh, input.dropWhile isNameOrHigh))

/-- The function `isName` on ASCII names. -/
def isName : Bytes → Bool
  | [] => false
  | c :: cs => isNameStart c && cs.all isNameByte

/-- The method `name`. Names with bytes outside ASCII need the Unicode
tables of the library and are not modelled. -/
def xmlName (input : Bytes) : Except GoError (Option (Bytes × Bytes)) :=
  match readName input with
  | Except.error e => Except.error e
  | Except.ok none => Except.ok none
  | Except.ok (some (nm, rest)) =>
    if nm.any (fun c => 128 ≤ c) then Except.error (notModelled "a name outside ASCII")
    else if isName nm then Except.ok (some (nm, rest))
    else Except.error (xmlError "invalid XML name")

/-- The struct `Name`: name space prefix and local name. -/
structure XmlName where
  Space : Bytes
  Local : Bytes
  deriving DecidableEq, Repr

/-- The split of a raw name at its colon as `nsname` does it. -/
def splitName (s : Bytes) : XmlName :=
  if s.count 58 = 0 ∨ s.takeWhile (fun c => c != 58) = []
      ∨ (s.dropWhile (fun c => c != 58)).drop 1 = [] then ⟨[], s⟩
  else ⟨s.takeWhile (fun c => c != 58), (s.dropWhile (fun c => c != 58)).drop 1⟩

/-- The method `nsname`; `none` when there is no name or it has more than one colon. -/
def nsname (input : Bytes) : Except GoError (Option (XmlName × Bytes)) :=
  match xmlName input with
  | Except.error e => Except.error e
  | Except.ok none => Except.ok none
  | Except.ok (some (s, rest)) =>
    if s.count 58 > 1 then Except.ok none else Except.ok (some (splitName s, rest))

/-- The conversion `string(rune(n))` for `n` up to `unicode.MaxRune`:
the UTF-8 encoding, with U+FFFD for the surrogates. -/
def encodeRune (n : Nat) : Bytes :=
  if 0xD800 ≤ n ∧ n ≤ 0xDFFF then [0xEF, 0xBF, 0xBD]
  else if n < 0x80 then [n.toUInt8]
  else if n < 0x800 then [(0xC0 + n / 64).toUInt8, (0x80 + n % 64).toUInt8]
  else if n < 0x10000 then
    [(0xE0 + n / 4096).toUInt8, (0x80 + n / 64 % 64).toUInt8, (0x80 + n % 64).toUInt8]
  else
    [(0xF0 + n / 262144).toUInt8, (0x80 + n / 4096 % 64).toUInt8,
      (0x80 + n / 64 % 64).toUInt8, (0x80 + n % 64).toUInt8]

/-- A continuation byte. -/
def isCont (c : UInt8) : Bool :=
  0x80 ≤ c && c ≤ 0xBF

/-- The function `utf8.DecodeRune`: the rune and its width; an invalid
encoding gives U+FFFD with width 1. -/
def decodeRune : Bytes → Nat × Nat
  | [] => (0xFFFD, 0)
  | p0 :: rest =>
    if p0 < 0x80 then (p0.toNat, 1)
    else if p0 < 0xC2 then (0xFFFD, 1)
    else if p0 < 0xE0 then
      match rest with
      | b1 :: _ =>
        if isCont b1 then (p0.toNat % 32 * 64 + b1.toNat % 64, 2) else (0xFFFD, 1)
      | _ => (0xFFFD, 1)
    else if p0 < 0xF0 then
      match rest with
      | b1 :: b2 :: _ =>
        if (if p0 == 0xE0 then 0xA0 else 0x80) ≤ b1
            && b1 ≤ (if p0 == 0xED then 0x9F else 0xBF) && isCont b2 then
          (p0.toNat % 16 * 4096 + b1.toNat % 64 * 64 + b2.toNat % 64, 3)
        else (0xFFFD, 1)
      | _ => (0xFFFD, 1)
    else if p0 < 0xF5 then
      match rest with
      | b1 :: b2 :: b3 :: _ =>
        if (if p0 == 0xF0 then 0x90 else 0x80) ≤ b1
            && b1 ≤ (if p0 == 0xF4 then 0x8F else 0xBF) && isCont b2 && isCont b3 then
          (p0.toNat % 8 * 262144 + b1.toNat % 64 * 4096 + b2.toNat % 64 * 64 + b3.toNat % 64, 4)
        else (0xFFFD, 1)
      | _ => (0xFFFD, 1)
    else (0xFFFD, 1)

/-- The function `isInCharacterRange`. -/
def isInCharacterRange (r : Nat) : Bool :=
  r == 0x09 || r == 0x0A || r == 0x0D || (0x20 ≤ r && r ≤ 0xD7FF) ||
    (0xE000 ≤ r && r ≤ 0xFFFD) || (0x10000 ≤ r && r ≤ 0x10FFFF)

/-- The inspection of the runes at the end of `text`: the error, if any.
The counter bounds the number of runes. -/
def checkRunes : Nat → Bytes → Option GoError
  | _, [] => none
  | 0, _ :: _ => none
  | fuel + 1, b :: rest =>
    if (decodeRune (b :: rest)).1 = 0xFFFD ∧ (decodeRune (b :: rest)).2 = 1 then
      some (xmlError "invalid UTF-8")
    else if !isInCharacterRange (decodeRune (b :: rest)).1 then
      some (xmlError "illegal character code")
    else checkRunes fuel ((b :: rest).drop (decodeRune (b :: rest)).2)

/-- Text whose runes pass the inspection. -/
def charsOk (data : Bytes) : Bool :=
  (checkRunes data.length data).isNone

/-- Digits of a character reference in base 10 or 16. -/
def isRefDigit (hex : Bool) (c : UInt8) : Bool :=
  (48 ≤ c && c ≤ 57) || (hex && ((97 ≤ c && c ≤ 102) || (65 ≤ c && c ≤ 70)))

/-- The value of one digit. -/
def digitValue (c : UInt8) : Nat :=
  if c ≤ 57 then c.toNat - 48 else if c ≤ 70 then c.toNat - 55 else c.toNat - 87

/-- The number `strconv.ParseUint` reads from the digits. -/
def digitsValue (hex : Bool) (digits : Bytes) : Nat :=
  digits.foldl (fun n c => n * (if hex then 16 else 10) + digitValue c) 0

/-- The table `entity` of the predefined entities. -/
def predefinedEntity (nm : Bytes) : Option Bytes :=
  if nm = [108, 116] then some [60]
  else if nm = [103, 116] then some [62]
  else if nm = [97, 109, 112] then some [38]
  else if nm = [97, 112, 111, 115] then some [39]
  else if nm = [113, 117, 111, 116] then some [34]
  else none

/-- The part of `text` that reads an entity after `&`: the text that
replaces it and the input after the `;`. The decoder is strict and has no
entity map of its own, so everything else is an error. -/
def readEntity (input : Bytes) : Except GoError (Bytes × Bytes) :=
  match input with
  | [] => Except.error unexpectedEOF
  | 35 :: [] => Except.error unexpectedEOF
  | 35 :: b :: r =>
    if b == 120 ∧ r = [] then Except.error unexpectedEOF
    else
      let hex : Bool := b == 120
      let r2 := if hex then r else b :: r
      match r2.dropWhile (isRefDigit hex) with
      | [] => Except.error unexpectedEOF
      | c :: r4 =>
        if c == 59 ∧ r2.takeWhile (isRefDigit hex) ≠ []
            ∧ digitsValue hex (r2.takeWhile (isRefDigit hex)) ≤ 0x10FFFF then
          Except.ok (encodeRune (digitsValue hex (r2.takeWhile (isRefDigit hex))), r4)
        else Except.error (xmlError "invalid character entity")
  | b :: r =>
    match readName (b :: r) with
    | Except.error e => Except.error e
    | Except.ok none => Except.error (xmlError "invalid character entity")
    | Except.ok (some (nm, rest)) =>
      match rest with
      | 59 :: r1 =>
        match predefinedEntity nm with
        | some text => Except.ok (text, r1)
        | none => Except.error (xmlError "invalid character entity")
      | _ => Except.error (xmlError "invalid character entity")

/-- The loop of the method `text`. `quote` is the closing quote of an
attribute value, `cdata` says that a CDATA section is read; `b0` and `b1`
are the two bytes read before, `buf` is the text so far. The result is the
text and the input left. The counter bounds the number of rounds. -/
def textLoop (quote : Option UInt8) (cdata : Bool) :
    Nat → UInt8 → UInt8 → Bytes → Bytes → Except GoError (Bytes × Bytes)
  | 0, _, _, _, _ => Except.error (notModelled "a longer input")
  | _ + 1, _, _, buf, [] =>
    if cdata then Except.error (xmlError "unexpected EOF in CDATA section")
    else Except.ok (buf, [])
  | fuel + 1, b0, b1, buf, b :: rest =>
    if b0 == 93 && b1 == 93 && b == 62 then
      if cdata then Except.ok (buf.take (buf.length - 2), rest)
      else Except.error (xmlError "unescaped ]]> not in CDATA section")
    else if b == 60 && !cdata then
      if quote.isSome then Except.error (xmlError "unescaped < inside quoted string")
      else Except.ok (buf, b :: rest)
    else if quote == some b then Except.ok (buf, rest)
    else if b == 38 && !cdata then
      match readEntity rest with
      | Except.error e => Except.error e
      | Except.ok (text, rest1) => textLoop quote cdata fuel 0 0 (buf ++ text) rest1
    else
      textLoop quote cdata fuel b1 b
        (if b == 13 then buf ++ [10] else if b1 == 13 && b == 10 then buf else buf ++ [b]) rest

/-- The method `text`: the input left after the text; the text itself is
only inspected. -/
def xmlText (quote : Option UInt8) (cdata : Bool) (input : Bytes) : Except GoError Bytes :=
  match textLoop quote cdata (input.length + 1) 0 0 [] input with
  | Except.error e => Except.error e
  | Except.ok (data, rest) =>
    match checkRunes data.length data with
    | some e => Except.error e
    | none => Except.ok rest

/-- The search for the end of a comment after `<!--`. -/
def scanComment : UInt8 → UInt8 → Bytes → Except GoError Bytes
  | _, _, [] => Except.error unexpectedEOF
  | b0, b1, b :: rest =>
    if b0 == 45 && b1 == 45 then
      if b == 62 then Except.ok rest
      else Except.error (xmlError "invalid sequence -- not allowed in comments")
    else scanComment b1 b rest

/-- The search for the end of a processing instruction. -/
def scanProcInst : UInt8 → Bytes → Except GoError Bytes
  | _, [] => Except.error unexpectedEOF
  | b0, b :: rest =>
    if b0 == 63 && b == 62 then Except.ok rest else scanProcInst b rest

/-- The test for `CDATA[` after `<![`. -/
def expectCDATA : Bytes → Bytes → Except GoError Bytes
  | [], input => Except.ok input
  | _ :: _, [] => Except.error unexpectedEOF
  | p :: pat, b :: rest =>
    if b == p then expectCDATA pat rest else Except.error (xmlError "invalid <![ sequence")

/-- The attribute loop of `rawToken` after an element name: whether the
tag is self-closing, and the input after the tag. The attribute values
are inspected and dropped, `rpcReply` has no field for them. The counter
bounds the number of attributes. -/
def attrLoop : Nat → Bytes → Except GoError (Bool × Bytes)
  | 0, _ => Except.error (notModelled "a longer input")
  | fuel + 1, input =>
    match skipSpace input with
    | [] => Except.error unexpectedEOF
    | b :: r =>
      if b == 47 then
        match r with
        | [] => Except.error unexpectedEOF
        | b1 :: rest =>
          if b1 == 62 then Except.ok (true, rest)
          else Except.error (xmlError "expected /> in element")
      else if b == 62 then Except.ok (false, r)
      else
        match nsname (b :: r) with
        | Except.error e => Except.error e
        | Except.ok none => Except.error (xmlError "expected attribute name in element")
        | Except.ok (some (_, r1)) =>
          match skipSpace r1 with
          | [] => Except.error unexpectedEOF
          | e :: r2 =>
            if e == 61 then
              match skipSpace r2 with
              | [] => Except.error unexpectedEOF
              | q :: r3 =>
                if q == 34 || q == 39 then
                  match xmlText (some q) false r3 with
                  | Except.error err => Except.error err
                  | Except.ok r4 => attrLoop fuel r4
                else Except.error (xmlError "unquoted or missing attribute value in element")
            else Except.error (xmlError "attribute name without = in element")

/-- The tokens as far as decoding into `rpcReply` looks at them. -/
inductive XmlToken where
  | startElement (name : XmlName) (selfClosing : Bool)
  | endElement (name : XmlName)
  | charData
  | comment
  | procInst
  deriving DecidableEq, Repr

/-- The end element after `</`. -/
def rawEndElement (rest : Bytes) : Except GoError (Option (XmlToken × Bytes)) :=
  match nsname rest with
  | Except.error e => Except.error e
  | Except.ok none => Except.error (xmlError "expected element name after </")
  | Except.ok (some (nm, r1)) =>
    match skipSpace r1 with
    | [] => Except.error unexpectedEOF
    | b :: r2 =>
      if b == 62 then Except.ok (some (XmlToken.endElement nm, r2))
      else Except.error (xmlError "invalid characters between </ and >")

/-- The processing instruction after `<?`. The target `xml` makes the
library inspect version and encoding, which is not modelled. -/
def rawProcInst (rest : Bytes) : Except GoError (Option (XmlToken × Bytes)) :=
  match xmlName rest with
  | Except.error e => Except.error e
  | Except.ok none => Except.error (xmlError "expected target name after <?")
  | Except.ok (some (target, r1)) =>
    if target = [120, 109, 108] then Except.error (notModelled "the XML declaration")
    else
      match scanProcInst 0 (skipSpace r1) with
      | Except.error e => Except.error e
      | Except.ok r2 => Except.ok (some (XmlToken.procInst, r2))

/-- The comment or CDATA section after `<!`. Directives (`<!DOCTYPE` and
the like) are not modelled. -/
def rawBang (rest : Bytes) : Except GoError (Option (XmlToken × Bytes)) :=
  match rest with
  | [] => Except.error unexpectedEOF
  | b :: r =>
    if b == 45 then
      match r with
      | [] => Except.error unexpectedEOF
      | b1 :: r1 =>
        if b1 == 45 then
          match scanComment 0 0 r1 with
          | Except.error e => Except.error e
          | Except.ok r2 => Except.ok (some (XmlToken.comment, r2))
        else Except.error (xmlError "invalid sequence <!- not part of <!--")
    else if b == 91 then
      match expectCDATA [67, 68, 65, 84, 65, 91] r with
      | Except.error e => Except.error e
      | Except.ok r1 =>
        match xmlText none true r1 with
        | Except.error e => Except.error e
        | Except.ok r2 => Except.ok (some (XmlToken.charData, r2))
    else Except.error (notModelled "a directive")

/-- The start element after `<`. -/
def rawStartElement (rest : Bytes) : Except GoError (Option (XmlToken × Bytes)) :=
  match nsname rest with
  | Except.error e => Except.error e
  | Except.ok none => Except.error (xmlError "expected element name after <")
  | Except.ok (some (nm, r1)) =>
    match attrLoop (r1.length + 1) r1 with
    | Except.error e => Except.error e
    | Except.ok (selfClosing, r2) =>
      Except.ok (some (XmlToken.startElement nm selfClosing, r2))

/-- The method `rawToken`: the next token and the input after it, `none`
at the end of the input. -/
def rawToken (input : Bytes) : Except GoError (Option (XmlToken × Bytes)) :=
  match input with
  | [] => Except.ok none
  | b :: rest =>
    if b != 60 then
      match xmlText none false (b :: rest) with
      | Except.error e => Except.error e
      | Except.ok r1 => Except.ok (some (XmlToken.charData, r1))
    else
      match rest with
      | [] => Except.error unexpectedEOF
      | b1 :: r1 =>
        if b1 == 47 then rawEndElement r1
        else if b1 == 63 then rawProcInst r1
        else if b1 == 33 then rawBang r1
        else rawStartElement (b1 :: r1)

/-- The search of `unmarshal` for the first start element: its name,
whether it is self-closing, and the input after it. Text, comments and
processing instructions before it are skipped; an end element there has
nothing to close. The counter bounds the number of tokens. -/
def findStart : Nat → Bytes → Except GoError (XmlName × Bool × Bytes)
  | 0, _ => Except.error (notModelled "a longer input")
  | fuel + 1, input =>
    match rawToken input with
    | Except.error e => Except.error e
    | Except.ok none => Except.error GoError.eof
    | Except.ok (some (XmlToken.startElement nm selfClosing, rest)) =>
      Except.ok (nm, selfClosing, rest)
    | Except.ok (some (XmlToken.endElement _, _)) =>
      Except.error (xmlError "unexpected end element")
    | Except.ok (some (_, rest)) => findStart fuel rest

/-- The loop of `unmarshal` over the children of the root, with the loop
of `Skip` over the descendants: both read tokens until the end element
that closes the root, and `Token` checks every end element against the
stack of open elements. `saved` is the input after the start tag of the
root; the result is its part before the closing end element, which is
what the decoder keeps for an `innerxml` field. A self-closing element is
pushed and popped at once. The counter bounds the number of tokens. -/
def innerXML (saved : Bytes) : Nat → List XmlName → Bytes → Except GoError Bytes
  | 0, _, _ => Except.error (notModelled "a longer input")
  | fuel + 1, stack, input =>
    match rawToken input with
    | Except.error e => Except.error e
    | Except.ok none => Except.error unexpectedEOF
    | Except.ok (some (XmlToken.startElement nm selfClosing, rest)) =>
      if selfClosing then innerXML saved fuel stack rest
      else innerXML saved fuel (nm :: stack) rest
    | Except.ok (some (XmlToken.endElement nm, rest)) =>
      match stack with
      | [] => Except.error (xmlError "unexpected end element")
      | top :: below =>
        if top.Local ≠ nm.Local then Except.error (xmlError "element closed by another")
        else if top.Space ≠ nm.Space then
          Except.error (xmlError "element closed by another in its space")
        else if below = [] then Except.ok (saved.take (saved.length - input.length))
        else innerXML saved fuel below rest
    | Except.ok (some (_, rest)) => innerXML saved fuel stack rest

/-- The call `xml.Unmarshal(b, &reply)` for a nil `*rpcReply`: the first
element must have the local name `rpc-reply`; `Body` is its inner XML,
byte for byte. What follows the element is not read. -/
def xmlUnmarshalReply (b : Bytes) : Except GoError rpcReply :=
  match findStart (b.length + 1) b with
  | Except.error e => Except.error e
  | Except.ok (nm, selfClosing, rest) =>
    if nm.Local ≠ [114, 112, 99, 45, 114, 101, 112, 108, 121] then
      Except.error (GoError.new "expected element type <rpc-reply>")
    else if selfClosing then Except.ok ⟨"rpc-reply", []⟩
    else
      match innerXML rest (rest.length + 1) [nm] rest with
      | Except.error e => Except.error e
      | Except.ok body => Except.ok ⟨"rpc-reply", body⟩

/-! ### Well-formed content of an element -/

/-- Text that contains `]]>`. -/
def hasCDEnd : Bytes → Bool
  | [] => false
  | b0 :: t => (b0 == 93 && t.take 2 == [93, 62]) || hasCDEnd t

/-- The text the decoder makes of raw bytes: `\r\n` and `\r` become `\n`.
`prev` is the byte before. -/
def crlfFrom (prev : UInt8) : Bytes → Bytes
  | [] => []
  | b :: rest =>
    (if b == 13 then [10] else if prev == 13 && b == 10 then [] else [b]) ++ crlfFrom b rest

/-- A name of an element or attribute: an ASCII name with at most one colon. -/
def validName (n : Bytes) : Bool :=
  isName n && decide (n.count 58 ≤ 1)

/-- White space only. -/
def isSpaces (ws : Bytes) : Bool :=
  ws.all isSpaceByte

/-- A reference: one of the five predefined entities or a character
reference with its digits. -/
inductive Reference where
  | lt
  | gt
  | amp
  | apos
  | quot
  | decimal (digits : Bytes)
  | hexadecimal (digits : Bytes)
  deriving DecidableEq, Repr

/-- The bytes of a reference after its `&`. -/
def Reference.tailBytes : Reference → Bytes
  | Reference.lt => [108, 116, 59]
  | Reference.gt => [103, 116, 59]
  | Reference.amp => [97, 109, 112, 59]
  | Reference.apos => [97, 112, 111, 115, 59]
  | Reference.quot => [113, 117, 111, 116, 59]
  | Reference.decimal digits => 35 :: (digits ++ [59])
  | Reference.hexadecimal digits => 35 :: 120 :: (digits ++ [59])

/-- The text a reference stands for. -/
def Reference.text : Reference → Bytes
  | Reference.lt => [60]
  | Reference.gt => [62]
  | Reference.amp => [38]
  | Reference.apos => [39]
  | Reference.quot => [34]
  | Reference.decimal digits => encodeRune (digitsValue false digits)
  | Reference.hexadecimal digits => encodeRune (digitsValue true digits)

/-- A character reference needs digits of its base that name a code
point up to U+10FFFF. -/
def Reference.valid : Reference → Bool
  | Reference.decimal digits =>
    !digits.isEmpty && digits.all (isRefDigit false) && decide (digitsValue false digits ≤ 0x10FFFF)
  | Reference.hexadecimal digits =>
    !digits.isEmpty && digits.all (isRefDigit true) && decide (digitsValue true digits ≤ 0x10FFFF)
  | _ => true

/-- A run of character data and references: raw bytes, then references
each followed by raw bytes. -/
structure TextRun where
  head : Bytes
  tail : List (Reference × Bytes)
  deriving DecidableEq, Repr

/-- The bytes of the references and the raw bytes after them. -/
def tailBytes : List (Reference × Bytes) → Bytes
  | [] => []
  | (r, piece) :: more => 38 :: (r.tailBytes ++ piece ++ tailBytes more)

/-- The bytes of a run. -/
def TextRun.bytes (run : TextRun) : Bytes :=
  run.head ++ tailBytes run.tail

/-- The text of the references and the raw bytes after them. -/
def tailData : List (Reference × Bytes) → Bytes
  | [] => []
  | (r, piece) :: more => r.text ++ crlfFrom 0 piece ++ tailData more

/-- The text of a run. -/
def TextRun.data (run : TextRun) : Bytes :=
  crlfFrom 0 run.head ++ tailData run.tail

/-- Raw bytes of a run: no `<`, no `&`, not the closing quote, no `]]>`. -/
def pieceOk (quote : Option UInt8) (piece : Bytes) : Bool :=
  piece.all (fun b => b != 60 && b != 38 && quote != some b) && !hasCDEnd piece

/-- The references are valid and the raw bytes fit. -/
def tailOk (quote : Option UInt8) : List (Reference × Bytes) → Bool
  | [] => true
  | (r, piece) :: more => r.valid && pieceOk quote piece && tailOk quote more

/-- A run is valid when its parts are and its text consists of
characters in the range of XML. -/
def TextRun.valid (quote : Option UInt8) (run : TextRun) : Bool :=
  pieceOk quote run.head && tailOk quote run.tail && charsOk run.data

/-- An attribute with the white space around it: `pre name eqPre = eqPost "value"`. -/
structure XmlAttr where
  pre : Bytes
  name : Bytes
  eqPre : Bytes
  eqPost : Bytes
  quote : UInt8
  value : TextRun
  deriving DecidableEq, Repr

/-- The bytes of an attribute. -/
def XmlAttr.bytes (a : XmlAttr) : Bytes :=
  a.pre ++ a.name ++ a.eqPre ++ [61] ++ a.eqPost ++ [a.quote] ++ a.value.bytes ++ [a.quote]

/-- White space before the name, a valid name, a quote of either kind, a
value without that quote. -/
def XmlAttr.valid (a : XmlAttr) : Bool :=
  !a.pre.isEmpty && isSpaces a.pre && validName a.name && isSpaces a.eqPre && isSpaces a.eqPost
    && (a.quote == 34 || a.quote == 39) && a.value.valid (some a.quote)

/-- The bytes of a list of attributes. -/
def attrsBytes : List XmlAttr → Bytes
  | [] => []
  | a :: more => a.bytes ++ attrsBytes more

/-- A start tag or empty-element tag: name, attributes, white space before the end. -/
structure StartTag where
  name : Bytes
  attrs : List XmlAttr
  ws : Bytes
  deriving DecidableEq, Repr

/-- The bytes of a tag; an empty-element tag ends with `/>`. -/
def StartTag.bytes (tag : StartTag) (selfClosing : Bool) : Bytes :=
  60 :: (tag.name ++ attrsBytes tag.attrs ++ tag.ws ++ (if selfClosing then [47, 62] else [62]))

/-- A valid name, valid attributes, white space. -/
def StartTag.valid (tag : StartTag) : Bool :=
  validName tag.name && tag.attrs.all XmlAttr.valid && isSpaces tag.ws

/-- The struct `details` of one `alarm-detail` element (`Typ` is the Go field `Type`). -/
structure details where
  Class : String
  Description : String
  Typ : String
  deriving DecidableEq, Repr

/-- The struct `result`: the `alarm-detail` children of `alarm-information`. -/
structure result where
  Details : List details
  deriving DecidableEq, Repr

/-- The struct `alarmCounter`. Its declaration is outside the files at
hand; the two fields are those of the composite literal that
`alarmCounter` returns. They are `float64` in Go and hold converted `int`
counters, which the conversion keeps exact; they are naturals here. -/
structure alarmCounter where
  yellow : Nat
  red : Nat
  deriving DecidableEq, Repr

/-- The struct `alarmCollector`; `filter` is nil or a compiled expression,
given by its `MatchString`. -/
structure alarmCollector where
  filter : Option (String → Bool)

/-- The interface `collector.Client` as far as the alarm collector calls
it. `RunCommandAndParse cmd obj` returns the error and the object after
decoding; `κ` is whatever state the implementation keeps. -/
structure CollectorClient (κ : Type) where
  IsNetconfEnabled : Bool
  RunCommandAndParse : String → result → κ → Option GoError × result × κ

/-- A constant metric: the name of its descriptor, its value, its label values. -/
structure Metric where
  name : String
  value : Nat
  labelValues : List String
  deriving DecidableEq, Repr

/-- The method `shouldFilterAlarm`. -/
def alarmCollector.shouldFilterAlarm (c : alarmCollector) (a : details) : Bool :=
  match c.filter with
  | none => false
  | some re => re a.Description || re a.Typ

/-- The local variables of `alarmCounter`; `messages` lists the keys of the map. -/
structure counterVars where
  red : Nat
  yellow : Nat
  alarms : List details
  messages : List String
  deriving DecidableEq, Repr

/-- The body of the inner loop of `alarmCounter` for one detail `d`. -/
def alarmCollector.countDetail (c : alarmCollector) (v : counterVars) (d : details) :
    counterVars :=
  if d.Description ∈ v.messages then v
  else
    let v := { v with alarms := v.alarms ++ [d] }
    if c.shouldFilterAlarm d then v
    else
      let v :=
        if d.Class = "Major" then { v with red := v.red + 1 }
        else if d.Class = "Minor" then { v with yellow := v.yellow + 1 }
        else v
      { v with messages := d.Description :: v.messages }

/-- The outer loop of `alarmCounter` over the commands. -/
def alarmCollector.countCommands {κ : Type} (c : alarmCollector) (client : CollectorClient κ) :
    List String → counterVars → κ → Option GoError × counterVars × κ
  | [], v, k => (none, v, k)
  | cmd :: cmds, v, k =>
    match client.RunCommandAndParse cmd ⟨[]⟩ k with
    | (some err, _, k1) => (some err, v, k1)
    | (none, a, k1) =>
      alarmCollector.countCommands c client cmds (a.Details.foldl c.countDetail v) k1

/-- The method `alarmCounter`. It returns `(nil, nil, err)` or the
addresses of a counter and of the alarm slice with a nil error, which is
an `Except` here; the second component is the client state afterwards. -/
def alarmCollector.alarmCounter {κ : Type} (c : alarmCollector) (client : CollectorClient κ)
    (k : κ) : Except GoError (alarmCounter × List details) × κ :=
  let cmds :=
    if client.IsNetconfEnabled then
      ["<get-system-alarm-information></get-system-alarm-information>",
       "<get-alarm-information></get-alarm-information>"]
    else
      ["show system alarms", "show chassis alarms"]
  match c.countCommands client cmds ⟨0, 0, [], []⟩ k with
  | (some err, _, k1) => (Except.error err, k1)
  | (none, v, k1) => (Except.ok (⟨v.yellow, v.red⟩, v.alarms), k1)

/-- The method `Collect`: the metrics sent on the channel, in order, and
the error. The alarm slice pointer is never nil when the error is nil, so
the loop over the alarms always runs. -/
def alarmCollector.Collect {κ : Type} (c : alarmCollector) (client : CollectorClient κ)
    (labelValues : List String) (k : κ) : (List Metric × Option GoError) × κ :=
  match c.alarmCounter client k with
  | (Except.error err, k1) => (([], some err), k1)
  | (Except.ok (counter, alarms), k1) =>
    (([⟨"junos_alarms_" ++ "yellow_count", counter.yellow, labelValues⟩,
       ⟨"junos_alarms_" ++ "red_count", counter.red, labelValues⟩]
      ++ alarms.map (fun alarm =>
          (⟨"junos_alarms_" ++ "set", 1,
            labelValues ++ [alarm.Class, alarm.Typ, alarm.Description]⟩ : Metric)), none), k1)

/-! ### What the counters are claimed to be -/

/-- The first detail of `D` with description `d` that the filter lets through. -/
def firstCounted (c : alarmCollector) (D : List details) (d : String) : Option details :=
  D.find? (fun x => x.Description == d && !c.shouldFilterAlarm x)

/-- The descriptions whose first unfiltered detail in `D` has class `cls`. -/
def countedDescriptions (c : alarmCollector) (D : List details) (cls : String) :
    Finset String :=
  (D.map (fun x => x.Description)).toFinset.filter
    (fun d => (firstCounted c D d).any (fun x => x.Class == cls) = true)

/-- The loop invariant of `alarmCounter` after the details `P`. -/
def counterInvariant (c : alarmCollector) (P : List details) (v : counterVars) : Prop :=
  (∀ d, d ∈ v.messages ↔ (firstCounted c P d).isSome = true) ∧
  v.red = (countedDescriptions c P "Major").card ∧
  v.yellow = (countedDescriptions c P "Minor").card

/-! ## Sample data used by the closed statements below -/

/-- A connected manager in shell mode without an RPC session. -/
def sampleShellConn : SSHConnection :=
  ⟨⟨"router1"⟩, some 1, some 2, 0, false, none⟩

/-- A connected manager in RPC mode without an RPC session. -/
def sampleNetconfConn : SSHConnection :=
  ⟨⟨"router1"⟩, some 1, some 2, 0, true, none⟩

/-- A disconnected manager in RPC mode. -/
def sampleDisconnected : SSHConnection :=
  ⟨⟨"router1"⟩, none, none, 0, true, none⟩

/-- Libraries that answer every call successfully at time 7; the sessions
built have handle 10 and every reply is empty. -/
def sampleEnvOk : Env :=
  ⟨7, Except.ok 3, fun _ => ([], none), Except.ok 4, fun _ => Except.ok 10,
    fun _ _ => Except.ok []⟩

/-- Libraries whose RPC requests all end with end-of-stream. -/
def sampleEnvEof : Env :=
  ⟨7, Except.ok 3, fun _ => ([], none), Except.ok 4, fun _ => Except.ok 10,
    fun _ _ => Except.error GoError.eof⟩

/-- Libraries whose RPC requests all run into the deadline. -/
def sampleEnvTimeout : Env :=
  ⟨7, Except.ok 3, fun _ => ([], none), Except.ok 4, fun _ => Except.ok 10,
    fun _ _ => Except.error GoError.deadlineExceeded⟩

/-- The bytes of an ASCII string. -/
def ascii (s : String) : Bytes :=
  s.toList.map (fun ch => ch.toNat.toUInt8)

/-- A connected manager in RPC mode with the established session 10. -/
def sampleEstablished : SSHConnection :=
  ⟨⟨"router1"⟩, some 1, some 2, 0, true, some 10⟩

/-- A filter that matches the string "License expired" only. -/
def sampleFilter : alarmCollector :=
  ⟨some (fun s => s == "License expired")⟩

/-- A client whose two alarm commands both report the same minor alarm. -/
def sampleAlarmClient : CollectorClient Unit :=
  ⟨false, fun _ _ k => (none, ⟨[⟨"Minor", "License expired", "System"⟩]⟩, k)⟩

/-- A client in shell mode: the system alarms are a filtered license alarm
and a major fan alarm, the chassis alarms repeat the fan alarm as minor
and add a minor power alarm. -/
def sampleMixedClient : CollectorClient Unit :=
  ⟨false, fun cmd _ k =>
    if cmd = "show system alarms" then
      (none, ⟨[⟨"Minor", "License expired", "System"⟩, ⟨"Major", "Fan failure", "Chassis"⟩]⟩, k)
    else
      (none, ⟨[⟨"Minor", "Fan failure", "Chassis"⟩, ⟨"Minor", "PEM 1 absent", "Chassis"⟩]⟩, k)⟩

/-! ## Theorems: session manager -/

/-- C1: with a nil `client`, `RunCommand` returns the error "not connected"
and no bytes in both modes, makes no external call, and leaves
`netconfsession` as it was. -/
theorem RunCommand_not_connected (c : SSHConnection) (env : Env) (cmd : String)
    (h : c.client = none) :
    (c.RunCommand env cmd).out = [] ∧
    (c.RunCommand env cmd).err = some (GoError.new "not connected") ∧
    (c.RunCommand env cmd).conn.netconfsession = c.netconfsession ∧
    (c.RunCommand env cmd).conn.client = none ∧
    (c.RunCommand env cmd).trace = [Event.runCommand cmd] := by
  cases hn : c.netconf <;>
    simp [SSHConnection.RunCommand, SSHConnection.RunCommandNetconf,
      SSHConnection.RunCommandSSH, hn, h]

/-- Witness of C1 on a disconnected manager. -/
theorem RunCommand_not_connected_witness :
    sampleDisconnected.client = none ∧
    (sampleDisconnected.RunCommand sampleEnvOk "get-alarm-information").err
      = some (GoError.new "not connected") :=
  ⟨rfl, (RunCommand_not_connected sampleDisconnected sampleEnvOk "get-alarm-information" rfl).2.1⟩

/-! ### Unfolding lemmas for the RPC strategy -/

theorem netconfRequest_eof (c : SSHConnection) (env : Env) (s : Nat) (cmd : String)
    (pre : List Event) (h : env.netconfDo s cmd = Except.error GoError.eof) :
    c.netconfRequest env s cmd pre =
      ⟨[], some (GoError.wrap GoError.eof "could not run command"),
        { c with netconfsession := none },
        pre ++ [Event.netconfDo s cmd, Event.println "Error - Closing", Event.netconfClose s]⟩ := by
  simp [SSHConnection.netconfRequest, h]

theorem netconfRequest_error (c : SSHConnection) (env : Env) (s : Nat) (cmd : String)
    (pre : List Event) (e : GoError) (h : env.netconfDo s cmd = Except.error e)
    (he : e ≠ GoError.eof) :
    c.netconfRequest env s cmd pre =
      ⟨[], some (GoError.wrap e "could not run command"), c, pre ++ [Event.netconfDo s cmd]⟩ := by
  simp [SSHConnection.netconfRequest, h, he]

theorem netconfRequest_ok (c : SSHConnection) (env : Env) (s : Nat) (cmd : String)
    (pre : List Event) (b : Bytes) (h : env.netconfDo s cmd = Except.ok b) :
    c.netconfRequest env s cmd pre = ⟨b, none, c, pre ++ [Event.netconfDo s cmd]⟩ := by
  simp [SSHConnection.netconfRequest, h]

/-- The trace of the request part is `pre` followed by the `Do` call and,
after end-of-stream, the close of the session. -/
theorem netconfRequest_trace (c : SSHConnection) (env : Env) (s : Nat) (cmd : String)
    (pre : List Event) :
    (c.netconfRequest env s cmd pre).trace = pre ++ [Event.netconfDo s cmd] ∨
    (c.netconfRequest env s cmd pre).trace =
      pre ++ [Event.netconfDo s cmd, Event.println "Error - Closing", Event.netconfClose s] := by
  cases hd : env.netconfDo s cmd with
  | error e =>
    by_cases he : e = GoError.eof
    · subst he; rw [netconfRequest_eof c env s cmd pre hd]; exact Or.inr rfl
    · rw [netconfRequest_error c env s cmd pre e hd he]; exact Or.inl rfl
  | ok b => rw [netconfRequest_ok c env s cmd pre b hd]; exact Or.inl rfl

theorem RunCommandNetconf_session (c : SSHConnection) (env : Env) (cmd : String) (k s : Nat)
    (hk : c.client = some k) (hs : c.netconfsession = some s) :
    c.RunCommandNetconf env cmd = c.netconfRequest env s cmd [] := by
  simp [SSHConnection.RunCommandNetconf, hk, hs]

theorem RunCommandNetconf_open (c : SSHConnection) (env : Env) (cmd : String) (k t s : Nat)
    (hk : c.client = some k) (hs : c.netconfsession = none)
    (ht : env.newTransport = Except.ok t) (ho : env.netconfOpen t = Except.ok s) :
    c.RunCommandNetconf env cmd =
      SSHConnection.netconfRequest { c with netconfsession := some s } env s cmd
        [Event.newTransport, Event.netconfOpen t] := by
  simp [SSHConnection.RunCommandNetconf, hk, hs, ht, ho]

theorem RunCommandNetconf_transport_error (c : SSHConnection) (env : Env) (cmd : String)
    (k : Nat) (e : GoError)
    (hk : c.client = some k) (hs : c.netconfsession = none)
    (ht : env.newTransport = Except.error e) :
    c.RunCommandNetconf env cmd =
      ⟨[], some (GoError.wrap e "could not create netconf transport"), c,
        [Event.newTransport]⟩ := by
  simp [SSHConnection.RunCommandNetconf, hk, hs, ht]

theorem RunCommandNetconf_open_error (c : SSHConnection) (env : Env) (cmd : String)
    (k t : Nat) (e : GoError)
    (hk : c.client = some k) (hs : c.netconfsession = none)
    (ht : env.newTransport = Except.ok t) (ho : env.netconfOpen t = Except.error e) :
    c.RunCommandNetconf env cmd =
      ⟨[], some (GoError.wrap e "could not open netconf session"),
        { c with netconfsession := none }, [Event.newTransport, Event.netconfOpen t]⟩ := by
  simp [SSHConnection.RunCommandNetconf, hk, hs, ht, ho]

theorem RunCommand_netconf (c : SSHConnection) (env : Env) (cmd : String)
    (hn : c.netconf = true) :
    c.RunCommand env cmd =
      { c.RunCommandNetconf env cmd with
        trace := Event.runCommand cmd :: (c.RunCommandNetconf env cmd).trace } := by
  simp [SSHConnection.RunCommand, hn]

/-- A call in RPC mode on a connected manager without a session invokes
the factory once, and a request it issues runs on the session just built. -/
theorem RunCommand_builds_session (c : SSHConnection) (env : Env) (cmd : String) (k : Nat)
    (hn : c.netconf = true) (hk : c.client = some k) (hs : c.netconfsession = none) :
    factoryCalls (c.RunCommand env cmd).trace = 1 ∧
    (∀ s2 op, Event.netconfDo s2 op ∈ (c.RunCommand env cmd).trace →
      ∃ t, env.newTransport = Except.ok t ∧ env.netconfOpen t = Except.ok s2) := by
  rw [RunCommand_netconf c env cmd hn]
  cases ht : env.newTransport with
  | error e =>
    rw [RunCommandNetconf_transport_error c env cmd k e hk hs ht]
    simp [factoryCalls]
  | ok t =>
    cases ho : env.netconfOpen t with
    | error e =>
      rw [RunCommandNetconf_open_error c env cmd k t e hk hs ht ho]
      simp [factoryCalls]
    | ok s =>
      rw [RunCommandNetconf_open c env cmd k t s hk hs ht ho]
      rcases netconfRequest_trace { c with netconfsession := some s } env s cmd
        [Event.newTransport, Event.netconfOpen t] with h | h <;>
      · simp only [h]
        refine ⟨by simp [factoryCalls], ?_⟩
        intro s2 op hmem
        simp at hmem
        exact ⟨t, rfl, by rw [ho, hmem.1]⟩

/-- C2: in RPC mode with a live transport, when the request of a call is
answered with `io.EOF`, the call returns an error and no bytes, closes the
session and leaves `netconfsession` nil; the next call invokes the session
factory exactly once (so a manager that started without a session has
counted one factory call after the first call and two after the second),
and any request the next call issues runs on the session that factory
call built. -/
theorem RunCommand_eof_forces_reopen (c : SSHConnection) (env1 env2 : Env)
    (cmd1 cmd2 : String) (s : Nat)
    (hn : c.netconf = true) (hc : c.client ≠ none)
    (hdo : Event.netconfDo s cmd1 ∈ (c.RunCommand env1 cmd1).trace)
    (heof : env1.netconfDo s cmd1 = Except.error GoError.eof) :
    (c.RunCommand env1 cmd1).err = some (GoError.wrap GoError.eof "could not run command") ∧
    (c.RunCommand env1 cmd1).out = [] ∧
    (c.RunCommand env1 cmd1).conn.netconfsession = none ∧
    Event.netconfClose s ∈ (c.RunCommand env1 cmd1).trace ∧
    factoryCalls (((c.RunCommand env1 cmd1).conn.RunCommand env2 cmd2).trace) = 1 ∧
    (c.netconfsession = none →
      factoryCalls (c.RunCommand env1 cmd1).trace = 1 ∧
      factoryCalls ((c.RunCommand env1 cmd1).trace
        ++ ((c.RunCommand env1 cmd1).conn.RunCommand env2 cmd2).trace) = 2) ∧
    (∀ s2, Event.netconfDo s2 cmd2 ∈ ((c.RunCommand env1 cmd1).conn.RunCommand env2 cmd2).trace →
      ∃ t, env2.newTransport = Except.ok t ∧ env2.netconfOpen t = Except.ok s2) := by
  obtain ⟨k, hk⟩ := Option.ne_none_iff_exists'.mp hc
  have hnext := RunCommand_builds_session { c with netconfsession := none } env2 cmd2 k hn hk rfl
  rw [RunCommand_netconf c env1 cmd1 hn] at hdo ⊢
  cases hs : c.netconfsession with
  | some s0 =>
    rw [RunCommandNetconf_session c env1 cmd1 k s0 hk hs] at hdo ⊢
    have hs0 : s0 = s := by
      rcases netconfRequest_trace c env1 s0 cmd1 [] with h | h <;>
      · simp [h] at hdo
        exact hdo.symm
    subst hs0
    rw [netconfRequest_eof c env1 s0 cmd1 [] heof]
    refine ⟨rfl, rfl, rfl, by simp, hnext.1, ?_, fun s2 h => hnext.2 s2 cmd2 h⟩
    intro h; cases h
  | none =>
    cases ht : env1.newTransport with
    | error e =>
      rw [RunCommandNetconf_transport_error c env1 cmd1 k e hk hs ht] at hdo
      simp at hdo
    | ok t =>
      cases ho : env1.netconfOpen t with
      | error e =>
        rw [RunCommandNetconf_open_error c env1 cmd1 k t e hk hs ht ho] at hdo
        simp at hdo
      | ok s0 =>
        rw [RunCommandNetconf_open c env1 cmd1 k t s0 hk hs ht ho] at hdo ⊢
        have hs0 : s0 = s := by
          rcases netconfRequest_trace { c with netconfsession := some s0 } env1 s0 cmd1
            [Event.newTransport, Event.netconfOpen t] with h | h <;>
          · simp [h] at hdo
            exact hdo.symm
        subst hs0
        rw [netconfRequest_eof _ env1 s0 cmd1 _ heof]
        refine ⟨rfl, rfl, rfl, by simp, hnext.1, ?_, fun s2 h => hnext.2 s2 cmd2 h⟩
        intro _
        have h3 := hnext.1
        simp only [factoryCalls, List.count_append] at h3 ⊢
        rw [h3]
        simp

/-- Witness of C2: a fresh connected manager in RPC mode whose first
request ends with end-of-stream and whose second call succeeds. -/
theorem RunCommand_eof_forces_reopen_witness :
    (sampleNetconfConn.RunCommand sampleEnvEof "get-alarm-information").conn.netconfsession
      = none ∧
    factoryCalls ((sampleNetconfConn.RunCommand sampleEnvEof "get-alarm-information").trace
      ++ ((sampleNetconfConn.RunCommand sampleEnvEof "get-alarm-information").conn.RunCommand
            sampleEnvOk "get-alarm-information").trace) = 2 :=
  have h := RunCommand_eof_forces_reopen sampleNetconfConn sampleEnvEof sampleEnvOk
    "get-alarm-information" "get-alarm-information" 10 rfl (by decide) (by decide) rfl
  ⟨h.2.2.1, (h.2.2.2.2.2.1 rfl).2⟩

/-- The shell strategy changes nothing but `lastUsed`, which it sets to
the current time on every path. -/
theorem RunCommandSSH_conn (c : SSHConnection) (env : Env) (cmd : String) :
    (c.RunCommandSSH env cmd).conn = { c with lastUsed := env.now } := by
  unfold SSHConnection.RunCommandSSH
  cases c.client with
  | none => rfl
  | some k =>
    cases hs : env.newSession with
    | error e => simp
    | ok x =>
      rcases hr : env.run cmd with ⟨b, _ | e⟩ <;> simp [hr]

/-- The RPC strategy changes no field but `netconfsession`. -/
theorem RunCommandNetconf_conn (c : SSHConnection) (env : Env) (cmd : String) :
    ∃ x, (c.RunCommandNetconf env cmd).conn = { c with netconfsession := x } := by
  have hreq : ∀ (c0 : SSHConnection) (s : Nat) (pre : List Event),
      c0.netconfsession = some s →
      ∃ x, (c0.netconfRequest env s cmd pre).conn = { c0 with netconfsession := x } := by
    intro c0 s pre h0
    cases hd : env.netconfDo s cmd with
    | error e =>
      by_cases he : e = GoError.eof
      · subst he; rw [netconfRequest_eof c0 env s cmd pre hd]; exact ⟨none, rfl⟩
      · rw [netconfRequest_error c0 env s cmd pre e hd he]; exact ⟨some s, by rw [← h0]⟩
    | ok b => rw [netconfRequest_ok c0 env s cmd pre b hd]; exact ⟨some s, by rw [← h0]⟩
  obtain ⟨d, cl, cn, lu, nf, ns⟩ := c
  cases cl with
  | none => exact ⟨ns, by simp [SSHConnection.RunCommandNetconf]⟩
  | some k =>
    cases ns with
    | some s =>
      rw [RunCommandNetconf_session _ env cmd k s rfl rfl]
      exact hreq _ s [] rfl
    | none =>
      cases ht : env.newTransport with
      | error e =>
        rw [RunCommandNetconf_transport_error _ env cmd k e rfl rfl ht]
        exact ⟨none, rfl⟩
      | ok t =>
        cases ho : env.netconfOpen t with
        | error e =>
          rw [RunCommandNetconf_open_error _ env cmd k t e rfl rfl ht ho]
          exact ⟨none, rfl⟩
        | ok s =>
          rw [RunCommandNetconf_open _ env cmd k t s rfl rfl ht ho]
          obtain ⟨x, hx⟩ := hreq (SSHConnection.mk d (some k) cn lu nf (some s)) s
            [Event.newTransport, Event.netconfOpen t] rfl
          exact ⟨x, hx⟩

/-- The RPC strategy never writes `lastUsed`. -/
theorem RunCommandNetconf_lastUsed (c : SSHConnection) (env : Env) (cmd : String) :
    (c.RunCommandNetconf env cmd).conn.lastUsed = c.lastUsed := by
  obtain ⟨x, hx⟩ := RunCommandNetconf_conn c env cmd
  rw [hx]

/-- No call of `RunCommand` changes `client` or `netconf`; in shell mode
it does not change `netconfsession` either. -/
theorem RunCommand_frame (c : SSHConnection) (env : Env) (cmd : String) :
    (c.RunCommand env cmd).conn.client = c.client ∧
    (c.RunCommand env cmd).conn.netconf = c.netconf ∧
    (c.netconf = false → (c.RunCommand env cmd).conn.netconfsession = c.netconfsession) := by
  obtain ⟨d, cl, cn, lu, nf, ns⟩ := c
  cases nf with
  | true =>
    obtain ⟨x, hx⟩ := RunCommandNetconf_conn (SSHConnection.mk d cl cn lu true ns) env cmd
    simp [SSHConnection.RunCommand, hx]
  | false =>
    have h := RunCommandSSH_conn (SSHConnection.mk d cl cn lu false ns) env cmd
    simp [SSHConnection.RunCommand, h]

/-- C6 (evaluation at the failing input): a connected manager in RPC mode
with `lastUsed = 0` runs a successful command while the clock reads 7;
afterwards `lastUsed` is still 0, whereas the same call on a manager in
shell mode stores 7. -/
theorem RunCommand_netconf_lastUsed_stale :
    sampleEnvOk.now = 7 ∧
    (sampleNetconfConn.RunCommand sampleEnvOk "get-alarm-information").err = none ∧
    (sampleNetconfConn.RunCommand sampleEnvOk "get-alarm-information").conn.lastUsed = 0 ∧
    (sampleShellConn.RunCommand sampleEnvOk "show version").conn.lastUsed = 7 := by
  refine ⟨rfl, rfl, rfl, rfl⟩

/-- C7: in RPC mode with a live transport and an established session `s`,
a request that fails with an error other than `io.EOF` (the deadline
included) makes `RunCommand` return that error wrapped and no bytes; the
manager is unchanged, the session is not closed, and the next call makes
no factory call and issues its request on `s`. -/
theorem RunCommand_error_keeps_session (c : SSHConnection) (env1 env2 : Env)
    (cmd1 cmd2 : String) (k s : Nat) (e : GoError)
    (hn : c.netconf = true) (hk : c.client = some k) (hs : c.netconfsession = some s)
    (hd : env1.netconfDo s cmd1 = Except.error e) (he : e ≠ GoError.eof) :
    (c.RunCommand env1 cmd1).err = some (GoError.wrap e "could not run command") ∧
    (c.RunCommand env1 cmd1).out = [] ∧
    (c.RunCommand env1 cmd1).conn = c ∧
    (c.RunCommand env1 cmd1).trace = [Event.runCommand cmd1, Event.netconfDo s cmd1] ∧
    factoryCalls ((c.RunCommand env1 cmd1).conn.RunCommand env2 cmd2).trace = 0 ∧
    Event.netconfDo s cmd2 ∈ ((c.RunCommand env1 cmd1).conn.RunCommand env2 cmd2).trace := by
  have h1 : c.RunCommand env1 cmd1 =
      ⟨[], some (GoError.wrap e "could not run command"), c,
        [Event.runCommand cmd1, Event.netconfDo s cmd1]⟩ := by
    rw [RunCommand_netconf c env1 cmd1 hn, RunCommandNetconf_session c env1 cmd1 k s hk hs,
      netconfRequest_error c env1 s cmd1 [] e hd he]
    rfl
  have h2 : factoryCalls (c.RunCommand env2 cmd2).trace = 0 ∧
      Event.netconfDo s cmd2 ∈ (c.RunCommand env2 cmd2).trace := by
    rw [RunCommand_netconf c env2 cmd2 hn, RunCommandNetconf_session c env2 cmd2 k s hk hs]
    rcases netconfRequest_trace c env2 s cmd2 [] with h | h <;> simp [h, factoryCalls]
  rw [h1]
  exact ⟨rfl, rfl, rfl, rfl, h2.1, h2.2⟩

/-- Witness of C7: the request runs into the deadline. -/
theorem RunCommand_error_keeps_session_witness :
    (sampleEstablished.RunCommand sampleEnvTimeout "get-alarm-information").err
      = some (GoError.wrap GoError.deadlineExceeded "could not run command") ∧
    (sampleEstablished.RunCommand sampleEnvTimeout "get-alarm-information").conn
      = sampleEstablished :=
  have h := RunCommand_error_keeps_session sampleEstablished sampleEnvTimeout sampleEnvOk
    "get-alarm-information" "get-alarm-information" 1 10 GoError.deadlineExceeded
    rfl rfl rfl rfl (by decide)
  ⟨h.1, h.2.2.1⟩

/-- With a nil `client`, `RunCommand` leaves `netconfsession` alone. -/
theorem RunCommand_session_of_no_client (c : SSHConnection) (env : Env) (cmd : String)
    (h : c.client = none) :
    (c.RunCommand env cmd).conn.netconfsession = c.netconfsession := by
  cases hn : c.netconf <;>
    simp [SSHConnection.RunCommand, SSHConnection.RunCommandNetconf,
      SSHConnection.RunCommandSSH, hn, h]

/-- Every call of `RunCommand` preserves "session only with transport". -/
theorem RunCommand_preserves (c : SSHConnection) (env : Env) (cmd : String)
    (h : c.sessionNeedsTransport) : (c.RunCommand env cmd).conn.sessionNeedsTransport := by
  unfold SSHConnection.sessionNeedsTransport at h ⊢
  rw [(RunCommand_frame c env cmd).1]
  intro hs
  by_cases hk : c.client = none
  · rw [RunCommand_session_of_no_client c env cmd hk] at hs
    exact h hs
  · exact hk

/-- Sequences of `RunCommand` calls preserve "session only with transport". -/
theorem runOps_runCommand_preserves (ops : List Op) :
    ∀ (c0 c : SSHConnection) (tr : List Event), c0.sessionNeedsTransport →
      (∀ op ∈ ops, op.isRunCommand = true) → c0.runOps ops = some (c, tr) →
      c.sessionNeedsTransport := by
  induction ops with
  | nil =>
    intro c0 c tr h0 _ hrun
    simp [SSHConnection.runOps] at hrun
    rw [← hrun.1]; exact h0
  | cons op ops ih =>
    intro c0 c tr h0 hall hrun
    cases op with
    | runCommand env cmd =>
      simp only [SSHConnection.runOps, SSHConnection.step] at hrun
      cases hrest : SSHConnection.runOps (c0.RunCommand env cmd).conn ops with
      | none => rw [hrest] at hrun; cases hrun
      | some p =>
        obtain ⟨c2, tr2⟩ := p
        rw [hrest] at hrun
        simp at hrun
        rw [← hrun.1]
        exact ih _ c2 tr2 (RunCommand_preserves c0 env cmd h0)
          (fun o ho => hall o (List.mem_cons_of_mem _ ho)) hrest
    | terminate => simpa [Op.isRunCommand] using hall Op.terminate (List.mem_cons_self _ _)
    | close => simpa [Op.isRunCommand] using hall Op.close (List.mem_cons_self _ _)

/-- Nothing but the RPC strategy writes `netconfsession`: in shell mode it
stays nil under every sequence of operations. -/
theorem runOps_shell_session (ops : List Op) :
    ∀ (c0 c : SSHConnection) (tr : List Event), c0.netconf = false →
      c0.netconfsession = none → c0.runOps ops = some (c, tr) → c.netconfsession = none := by
  induction ops with
  | nil =>
    intro c0 c tr _ h0 hrun
    simp [SSHConnection.runOps] at hrun
    rw [← hrun.1]; exact h0
  | cons op ops ih =>
    intro c0 c tr hn h0 hrun
    simp only [SSHConnection.runOps] at hrun
    cases hstep : c0.step op with
    | none => rw [hstep] at hrun; cases hrun
    | some p1 =>
      obtain ⟨c1, tr1⟩ := p1
      rw [hstep] at hrun
      dsimp only at hrun
      have h1 : c1.netconf = false ∧ c1.netconfsession = none := by
        cases op with
        | runCommand env cmd =>
          simp only [SSHConnection.step, Option.some.injEq, Prod.mk.injEq] at hstep
          rw [← hstep.1]
          have hf := RunCommand_frame c0 env cmd
          exact ⟨by rw [hf.2.1, hn], by rw [hf.2.2 hn, h0]⟩
        | terminate =>
          simp only [SSHConnection.step, SSHConnection.terminate] at hstep
          cases hc : c0.conn with
          | none => rw [hc] at hstep; cases hstep
          | some k =>
            rw [hc] at hstep
            simp only [Option.some.injEq, Prod.mk.injEq] at hstep
            rw [← hstep.1]; exact ⟨hn, h0⟩
        | close =>
          simp only [SSHConnection.step, SSHConnection.close, Option.some.injEq,
            Prod.mk.injEq] at hstep
          rw [← hstep.1]; exact ⟨hn, h0⟩
      cases hrest : SSHConnection.runOps c1 ops with
      | none => rw [hrest] at hrun; cases hrun
      | some p =>
        obtain ⟨c2, tr2⟩ := p
        rw [hrest] at hrun
        simp at hrun
        rw [← hrun.1]
        exact ih c1 c2 tr2 h1.1 h1.2 hrest

/-- C8 (counterexample): a fresh connected manager in RPC mode runs one
successful command and is then terminated; the resulting state has a
session but no transport. -/
theorem sessionNeedsTransport_fails_after_terminate :
    sampleNetconfConn.netconfsession = none ∧
    ∃ c tr, sampleNetconfConn.runOps
        [Op.runCommand sampleEnvOk "get-alarm-information", Op.terminate] = some (c, tr) ∧
      c.client = none ∧ c.netconfsession = some 10 ∧ ¬ c.sessionNeedsTransport :=
  ⟨rfl, _, _, rfl, rfl, rfl, by decide⟩

/-- C8 (amended): from a fresh manager (`netconfsession` nil), every state
reached by a sequence of `RunCommand` calls satisfies "session only with
transport", and in shell mode every state reached by any sequence of
`RunCommand`, `terminate` and `close` has a nil session; `terminate` and
`close` set `client` to nil and leave `netconfsession` as it was. -/
theorem sessionNeedsTransport_reachable (c0 c : SSHConnection) (ops : List Op)
    (tr : List Event) (h0 : c0.netconfsession = none) (hrun : c0.runOps ops = some (c, tr)) :
    ((∀ op ∈ ops, op.isRunCommand = true) → c.sessionNeedsTransport) ∧
    (c0.netconf = false → c.netconfsession = none ∧ c.sessionNeedsTransport) ∧
    (∀ c1 tr1, c.terminate = some (c1, tr1) →
      c1.client = none ∧ c1.netconfsession = c.netconfsession) ∧
    (c.close.1.client = none ∧ c.close.1.netconfsession = c.netconfsession) := by
  refine ⟨?_, ?_, ?_, ?_⟩
  · intro hall
    exact runOps_runCommand_preserves ops c0 c tr (fun h => absurd h0 h) hall hrun
  · intro hn
    have h := runOps_shell_session ops c0 c tr hn h0 hrun
    exact ⟨h, fun hs => absurd h hs⟩
  · intro c1 tr1 ht
    simp only [SSHConnection.terminate] at ht
    cases hc : c.conn with
    | none => rw [hc] at ht; cases ht
    | some k =>
      rw [hc] at ht
      simp only [Option.some.injEq, Prod.mk.injEq] at ht
      rw [← ht.1]; exact ⟨rfl, rfl⟩
  · exact ⟨rfl, rfl⟩

/-- Witness of C8 (amended): two calls in RPC mode, the first one ending
with end-of-stream. -/
theorem sessionNeedsTransport_reachable_witness :
    ∃ c tr, sampleNetconfConn.runOps
        [Op.runCommand sampleEnvEof "get-alarm-information",
         Op.runCommand sampleEnvOk "get-alarm-information"] = some (c, tr) ∧
      c.netconfsession = some 10 ∧ c.sessionNeedsTransport :=
  ⟨_, _, rfl, rfl,
    (sessionNeedsTransport_reachable sampleNetconfConn _
      [Op.runCommand sampleEnvEof "get-alarm-information",
       Op.runCommand sampleEnvOk "get-alarm-information"] _ rfl rfl).1
      (by intro op hop; simp at hop; rcases hop with h | h <;> rw [h] <;> rfl)⟩

/-! ## Theorems: RPC client -/

/-- The operand of `%s` is copied, whatever it contains. -/
theorem fmtSprintf_display_xml (cmd : String) :
    fmtSprintf "%s | display xml" [cmd] = cmd ++ " | display xml" := by
  apply String.ext
  simp [fmtSprintf, sprintfChars]

/-- The shell strategy records no `RunCommand` entry. -/
theorem runCommandArgs_RunCommandSSH (c : SSHConnection) (env : Env) (cmd : String) :
    runCommandArgs (c.RunCommandSSH env cmd).trace = [] := by
  unfold SSHConnection.RunCommandSSH
  cases c.client with
  | none => rfl
  | some k =>
    cases hs : env.newSession with
    | error e => simp [runCommandArgs]
    | ok x =>
      rcases hr : env.run cmd with ⟨b, _ | e⟩ <;> simp [hr, runCommandArgs]

/-- The RPC strategy records no `RunCommand` entry. -/
theorem runCommandArgs_RunCommandNetconf (c : SSHConnection) (env : Env) (cmd : String) :
    runCommandArgs (c.RunCommandNetconf env cmd).trace = [] := by
  obtain ⟨d, cl, cn, lu, nf, ns⟩ := c
  cases cl with
  | none => simp [SSHConnection.RunCommandNetconf, runCommandArgs]
  | some k =>
    cases ns with
    | some s =>
      rw [RunCommandNetconf_session _ env cmd k s rfl rfl]
      rcases netconfRequest_trace (SSHConnection.mk d (some k) cn lu nf (some s)) env s cmd []
        with h | h <;> simp [h, runCommandArgs]
    | none =>
      cases ht : env.newTransport with
      | error e =>
        rw [RunCommandNetconf_transport_error _ env cmd k e rfl rfl ht]
        simp [runCommandArgs]
      | ok t =>
        cases ho : env.netconfOpen t with
        | error e =>
          rw [RunCommandNetconf_open_error _ env cmd k t e rfl rfl ht ho]
          simp [runCommandArgs]
        | ok s =>
          rw [RunCommandNetconf_open _ env cmd k t s rfl rfl ht ho]
          rcases netconfRequest_trace (SSHConnection.mk d (some k) cn lu nf (some s)) env s cmd
            [Event.newTransport, Event.netconfOpen t] with h | h <;>
            simp [h, runCommandArgs]

/-- A call of `RunCommand` records exactly its own argument. -/
theorem runCommandArgs_RunCommand (c : SSHConnection) (env : Env) (cmd : String) :
    runCommandArgs (c.RunCommand env cmd).trace = [cmd] := by
  cases hn : c.netconf <;>
    simp [SSHConnection.RunCommand, hn, runCommandArgs, runCommandArgs_RunCommandSSH,
      runCommandArgs_RunCommandNetconf]

theorem runCommandArgs_append (xs ys : List Event) :
    runCommandArgs (xs ++ ys) = runCommandArgs xs ++ runCommandArgs ys := by
  induction xs with
  | nil => rfl
  | cons x xs ih => cases x <;> simp [runCommandArgs, ih]

/-- C3: for every command string, `RunCommandAndParseWithParser` calls the
manager's `RunCommand` exactly once, with the command followed by
" | display xml" in shell mode and with the command itself in RPC mode;
the manager it leaves behind is the one that call produced. -/
theorem RunCommandAndParseWithParser_wire_command {σ : Type} (c : Client)
    (unmarshalReply : Bytes → Except GoError rpcReply) (env : Env) (cmd : String)
    (parser : Parser σ) (target : σ) :
    runCommandArgs (c.RunCommandAndParseWithParser unmarshalReply env cmd parser target).trace
      = [if c.netconf then cmd else cmd ++ " | display xml"] ∧
    (c.RunCommandAndParseWithParser unmarshalReply env cmd parser target).client.conn
      = (c.conn.RunCommand env (if c.netconf then cmd else cmd ++ " | display xml")).conn := by
  obtain ⟨conn, dbg, sat, nc⟩ := c
  have hlog : ∀ (f h : String) (o : String ⊕ Bytes),
      runCommandArgs (if dbg = true then [Event.logPrintf f h o] else []) = [] := by
    intro f h o; cases dbg <;> rfl
  cases nc with
  | true =>
    simp only [Client.RunCommandAndParseWithParser, if_true]
    cases he : (conn.RunCommand env cmd).err <;>
      simp [runCommandArgs_append, runCommandArgs_RunCommand, hlog]
  | false =>
    simp only [Client.RunCommandAndParseWithParser, fmtSprintf_display_xml]
    cases he : (conn.RunCommand env (cmd ++ " | display xml")).err with
    | some e => simp [he, runCommandArgs_append, runCommandArgs_RunCommand, hlog]
    | none =>
      cases hu : unmarshalReply (conn.RunCommand env (cmd ++ " | display xml")).out <;>
        simp [he, hu, runCommandArgs_append, runCommandArgs_RunCommand, hlog]

/-! ### The decoder of the library on well-formed content -/

/-- A property of all bytes follows from its 256 instances. -/
theorem forall_byte (P : UInt8 → Prop) (h : ∀ n : Fin 256, P ⟨⟨n⟩⟩) : ∀ c, P c :=
  fun c => h c.toBitVec.toFin

set_option maxRecDepth 100000 in
theorem isNameByte_ascii : ∀ c : UInt8, isNameByte c = true → ¬ (128 ≤ c) := by
  apply forall_byte
  decide

set_option maxRecDepth 100000 in
theorem isSpaceByte_not_name : ∀ c : UInt8, isSpaceByte c = true → isNameOrHigh c = false := by
  apply forall_byte
  decide

set_option maxRecDepth 100000 in
theorem isNameStart_isNameByte : ∀ c : UInt8, isNameStart c = true → isNameByte c = true := by
  apply forall_byte
  decide

theorem takeWhile_append_stop {p : UInt8 → Bool} (xs : Bytes) (b : UInt8) (rest : Bytes)
    (hxs : ∀ c ∈ xs, p c = true) (hb : p b = false) :
    (xs ++ b :: rest).takeWhile p = xs := by
  induction xs with
  | nil => simp [List.takeWhile, hb]
  | cons x xs ih =>
    have hx : p x = true := hxs x (List.mem_cons_self _ _)
    simp [List.takeWhile, hx, ih (fun c hc => hxs c (List.mem_cons_of_mem _ hc))]

theorem dropWhile_append_stop {p : UInt8 → Bool} (xs : Bytes) (b : UInt8) (rest : Bytes)
    (hxs : ∀ c ∈ xs, p c = true) (hb : p b = false) :
    (xs ++ b :: rest).dropWhile p = b :: rest := by
  induction xs with
  | nil => simp [List.dropWhile, hb]
  | cons x xs ih =>
    have hx : p x = true := hxs x (List.mem_cons_self _ _)
    simp [List.dropWhile, hx, ih (fun c hc => hxs c (List.mem_cons_of_mem _ hc))]

/-- The bytes of a name are name bytes within ASCII. -/
theorem isName_bytes (nm : Bytes) (h : isName nm = true) :
    nm ≠ [] ∧ (∀ c ∈ nm, isNameOrHigh c = true) ∧ nm.any (fun c => 128 ≤ c) = false := by
  cases nm with
  | nil => simp [isName] at h
  | cons c cs =>
    simp only [isName, Bool.and_eq_true, List.all_eq_true] at h
    have hall : ∀ x ∈ c :: cs, isNameByte x = true := by
      intro x hx
      rcases List.mem_cons.mp hx with rfl | hx
      · exact isNameStart_isNameByte _ h.1
      · exact h.2 x hx
    refine ⟨by simp, fun x hx => by simp [isNameOrHigh, hall x hx], ?_⟩
    rw [List.any_eq_false]
    intro x hx
    simpa using isNameByte_ascii x (hall x hx)

theorem readName_append (nm : Bytes) (b : UInt8) (rest : Bytes) (hne : nm ≠ [])
    (hall : ∀ c ∈ nm, isNameOrHigh c = true) (hb : isNameOrHigh b = false) :
    readName (nm ++ b :: rest) = Except.ok (some (nm, b :: rest)) := by
  unfold readName
  rw [takeWhile_append_stop nm b rest hall hb, dropWhile_append_stop nm b rest hall hb]
  simp [hne]

theorem xmlName_append (nm : Bytes) (b : UInt8) (rest : Bytes) (h : isName nm = true)
    (hb : isNameOrHigh b = false) :
    xmlName (nm ++ b :: rest) = Except.ok (some (nm, b :: rest)) := by
  obtain ⟨hne, hall, hhigh⟩ := isName_bytes nm h
  unfold xmlName
  rw [readName_append nm b rest hne hall hb]
  simp [hhigh, h]

theorem xmlName_then (nm ws : Bytes) (t : UInt8) (rest : Bytes) (h : isName nm = true)
    (hws : isSpaces ws = true) (ht : isNameOrHigh t = false) :
    xmlName (nm ++ ws ++ t :: rest) = Except.ok (some (nm, ws ++ t :: rest)) := by
  cases ws with
  | nil => simpa using xmlName_append nm t rest h ht
  | cons s ws =>
    have hs : isNameOrHigh s = false :=
      isSpaceByte_not_name s (List.all_eq_true.mp hws s (List.mem_cons_self _ _))
    simpa using xmlName_append nm s (ws ++ t :: rest) h hs

set_option maxRecDepth 100000 in
/-- The decoder on a reply as the device sends it: white space before
the root, attributes on the root, an attribute and text with a reference
inside, text after the root. -/
theorem xmlUnmarshalReply_device_reply :
    xmlUnmarshalReply (ascii ("\n<rpc-reply xmlns:junos=\"http://xml.juniper.net/junos/20.2R1/junos\">"
      ++ "\n<alarm-information junos:style='brief'><alarm-summary>no &amp; none</alarm-summary>"
      ++ "</alarm-information>\n</rpc-reply>\n"))
    = Except.ok ⟨"rpc-reply", ascii ("\n<alarm-information junos:style='brief'>"
      ++ "<alarm-summary>no &amp; none</alarm-summary></alarm-information>\n")⟩ := by
  rfl

/-- The decoder refuses an end tag that does not close the open element,
a root of another name, input that ends inside the root, empty input,
a name with two colons, and `]]>` in an attribute value. -/
theorem xmlUnmarshalReply_refuses :
    xmlUnmarshalReply (ascii "<rpc-reply><a></b></rpc-reply>")
      = Except.error (xmlError "element closed by another") ∧
    xmlUnmarshalReply (ascii "<rpc-error><a/></rpc-error>")
      = Except.error (GoError.new "expected element type <rpc-reply>") ∧
    xmlUnmarshalReply (ascii "<rpc-reply><a>") = Except.error unexpectedEOF ∧
    xmlUnmarshalReply (ascii "") = Except.error GoError.eof ∧
    xmlUnmarshalReply (ascii "<rpc-reply><a:b:c/></rpc-reply>")
      = Except.error (xmlError "expected element name after <") ∧
    xmlUnmarshalReply (ascii "<rpc-reply><a b=']]>'/></rpc-reply>")
      = Except.error (xmlError "unescaped ]]> not in CDATA section") := by
  refine ⟨rfl, rfl, rfl, rfl, rfl, rfl⟩

/-- Replacing the line break by nothing deletes the line breaks. -/
theorem bytesReplaceAll_newline (b : Bytes) :
    bytesReplaceAll b [10] [] = b.filter (fun x => x != 10) := by
  unfold bytesReplaceAll
  induction b with
  | nil => rfl
  | cons x rest ih =>
    by_cases hx : x = 10
    · subst hx
      simp [bytesReplaceFrom, List.isPrefixOf, ih]
    · have hx2 : ¬ (10 : UInt8) = x := fun h => hx h.symm
      simp [bytesReplaceFrom, List.isPrefixOf, ih, hx, hx2]

/-- C5: `RunCommandAndParse` is `RunCommandAndParseWithParser` with a decode
function that, in RPC mode, hands the structured decoder the body with
every line-break byte deleted and the other bytes in their order (so no
line break is left), and, in shell mode, hands it the body as it is. -/
theorem RunCommandAndParse_decoder_input {σ : Type} (c : Client)
    (unmarshalReply : Bytes → Except GoError rpcReply) (xmlUnmarshal : Parser σ)
    (env : Env) (cmd : String) (obj : σ) :
    c.RunCommandAndParse unmarshalReply xmlUnmarshal env cmd obj
      = c.RunCommandAndParseWithParser unmarshalReply env cmd
          (fun b => xmlUnmarshal (if c.netconf then b.filter (fun x => x != 10) else b)) obj ∧
    (∀ b : Bytes, (10 : UInt8) ∉ b.filter (fun x => x != 10)) := by
  refine ⟨?_, fun b hmem => by simpa using (List.mem_filter.mp hmem).2⟩
  cases hn : c.netconf <;> simp [Client.RunCommandAndParse, hn, bytesReplaceAll_newline]

/-! ## Theorems: alarm collector -/

/-- What `firstCounted` finds is an unfiltered detail of the list with
the description asked for. -/
theorem firstCounted_some (c : alarmCollector) (D : List details) (d : String) (x : details)
    (h : firstCounted c D d = some x) :
    x ∈ D ∧ x.Description = d ∧ c.shouldFilterAlarm x = false := by
  unfold firstCounted at h
  have hp := List.find?_some h
  have hm := List.mem_of_find?_eq_some h
  simp at hp
  exact ⟨hm, hp.1, hp.2⟩

theorem firstCounted_snoc_some (c : alarmCollector) (P : List details) (x y : details)
    (d : String) (h : firstCounted c P d = some y) :
    firstCounted c (P ++ [x]) d = some y := by
  unfold firstCounted at h ⊢
  rw [List.find?_append, h]
  rfl

theorem firstCounted_snoc_none (c : alarmCollector) (P : List details) (x : details)
    (d : String) (h : firstCounted c P d = none) :
    firstCounted c (P ++ [x]) d =
      if x.Description = d ∧ c.shouldFilterAlarm x = false then some x else none := by
  unfold firstCounted at h ⊢
  rw [List.find?_append, h]
  by_cases hx : x.Description = d ∧ c.shouldFilterAlarm x = false
  · simp [List.find?_cons, hx.1, hx.2]
  · rw [if_neg hx]
    have : (x.Description == d && !c.shouldFilterAlarm x) = false := by
      by_cases h1 : x.Description = d
      · have h2 : c.shouldFilterAlarm x = true := by
          cases hf : c.shouldFilterAlarm x with
          | true => rfl
          | false => exact absurd ⟨h1, hf⟩ hx
        simp [h2]
      · simp [h1]
    simp [List.find?_cons, this]

theorem mem_countedDescriptions (c : alarmCollector) (D : List details) (cls d : String) :
    d ∈ countedDescriptions c D cls ↔ ∃ x, firstCounted c D d = some x ∧ x.Class = cls := by
  unfold countedDescriptions
  rw [Finset.mem_filter, List.mem_toFinset]
  constructor
  · rintro ⟨_, hany⟩
    cases hf : firstCounted c D d with
    | none => rw [hf] at hany; simp at hany
    | some x =>
      rw [hf] at hany
      simp at hany
      exact ⟨x, rfl, hany⟩
  · rintro ⟨x, hf, hcls⟩
    obtain ⟨hm, hd, _⟩ := firstCounted_some c D d x hf
    refine ⟨List.mem_map.mpr ⟨x, hm, hd⟩, ?_⟩
    rw [hf]
    simp [hcls]

/-- A detail that is skipped (its description is already recorded, or the
filter matches it) changes no set of counted descriptions. -/
theorem countedDescriptions_snoc_skip (c : alarmCollector) (P : List details) (x : details)
    (cls : String)
    (h : (firstCounted c P x.Description).isSome = true ∨ c.shouldFilterAlarm x = true) :
    countedDescriptions c (P ++ [x]) cls = countedDescriptions c P cls := by
  ext d
  rw [mem_countedDescriptions, mem_countedDescriptions]
  cases hf : firstCounted c P d with
  | some y => rw [firstCounted_snoc_some c P x y d hf]
  | none =>
    rw [firstCounted_snoc_none c P x d hf]
    have hno : ¬ (x.Description = d ∧ c.shouldFilterAlarm x = false) := by
      rintro ⟨hd, hflt⟩
      rcases h with h | h
      · rw [hd, hf] at h; simp at h
      · rw [h] at hflt; cases hflt
    rw [if_neg hno]

/-- A detail that is counted adds its description to the set of its own
class and to no other, and the description was in none of them before. -/
theorem countedDescriptions_snoc_count (c : alarmCollector) (P : List details) (x : details)
    (cls : String) (hnew : firstCounted c P x.Description = none)
    (hflt : c.shouldFilterAlarm x = false) :
    x.Description ∉ countedDescriptions c P cls ∧
    countedDescriptions c (P ++ [x]) cls =
      if x.Class = cls then insert x.Description (countedDescriptions c P cls)
      else countedDescriptions c P cls := by
  constructor
  · rw [mem_countedDescriptions, hnew]
    simp
  · ext d
    by_cases hd : x.Description = d
    · subst hd
      have hfirst : firstCounted c (P ++ [x]) x.Description = some x := by
        rw [firstCounted_snoc_none c P x _ hnew, if_pos ⟨rfl, hflt⟩]
      by_cases hc : x.Class = cls
      · rw [if_pos hc, mem_countedDescriptions, hfirst]
        simp [hc]
      · rw [if_neg hc, mem_countedDescriptions, mem_countedDescriptions, hfirst, hnew]
        simp [hc]
    · have hsame : firstCounted c (P ++ [x]) d = firstCounted c P d := by
        cases hf : firstCounted c P d with
        | some y => exact firstCounted_snoc_some c P x y d hf
        | none =>
          rw [firstCounted_snoc_none c P x d hf, if_neg (fun h => hd h.1)]
      have hmem : d ∈ countedDescriptions c (P ++ [x]) cls ↔ d ∈ countedDescriptions c P cls := by
        rw [mem_countedDescriptions, mem_countedDescriptions, hsame]
      by_cases hc : x.Class = cls
      · rw [if_pos hc, Finset.mem_insert, hmem]
        constructor
        · exact fun h => Or.inr h
        · rintro (h | h)
          · exact absurd h.symm hd
          · exact h
      · rw [if_neg hc, hmem]

theorem counterInvariant_step (c : alarmCollector) (P : List details) (v : counterVars)
    (x : details) (h : counterInvariant c P v) :
    counterInvariant c (P ++ [x]) (c.countDetail v x) := by
  obtain ⟨hmsg, hred, hyel⟩ := h
  by_cases hin : x.Description ∈ v.messages
  · have hsome := (hmsg x.Description).mp hin
    have hv : c.countDetail v x = v := by simp [alarmCollector.countDetail, hin]
    rw [hv]
    refine ⟨fun d => ?_, ?_, ?_⟩
    · rw [hmsg d]
      cases hf : firstCounted c P d with
      | some y => rw [firstCounted_snoc_some c P x y d hf]
      | none =>
        rw [firstCounted_snoc_none c P x d hf]
        have hno : ¬ (x.Description = d ∧ c.shouldFilterAlarm x = false) := by
          rintro ⟨hd, _⟩
          rw [hd, hf] at hsome; simp at hsome
        rw [if_neg hno]
    · rw [countedDescriptions_snoc_skip c P x "Major" (Or.inl hsome)]; exact hred
    · rw [countedDescriptions_snoc_skip c P x "Minor" (Or.inl hsome)]; exact hyel
  · have hnone : firstCounted c P x.Description = none := by
      cases hf : firstCounted c P x.Description with
      | none => rfl
      | some y => exact absurd ((hmsg x.Description).mpr (by rw [hf]; rfl)) hin
    cases hflt : c.shouldFilterAlarm x with
    | true =>
      have hv : c.countDetail v x = { v with alarms := v.alarms ++ [x] } := by
        simp [alarmCollector.countDetail, hin, hflt]
      rw [hv]
      refine ⟨fun d => ?_, ?_, ?_⟩
      · show d ∈ v.messages ↔ _
        rw [hmsg d]
        cases hf : firstCounted c P d with
        | some y => rw [firstCounted_snoc_some c P x y d hf]
        | none =>
          rw [firstCounted_snoc_none c P x d hf]
          have hno : ¬ (x.Description = d ∧ c.shouldFilterAlarm x = false) := by
            rintro ⟨_, h2⟩
            rw [hflt] at h2; cases h2
          rw [if_neg hno]
      · rw [countedDescriptions_snoc_skip c P x "Major" (Or.inr hflt)]; exact hred
      · rw [countedDescriptions_snoc_skip c P x "Minor" (Or.inr hflt)]; exact hyel
    | false =>
      obtain ⟨hnotMaj, hMaj⟩ := countedDescriptions_snoc_count c P x "Major" hnone hflt
      obtain ⟨hnotMin, hMin⟩ := countedDescriptions_snoc_count c P x "Minor" hnone hflt
      have hmsg2 : ∀ d, d ∈ x.Description :: v.messages ↔
          (firstCounted c (P ++ [x]) d).isSome = true := by
        intro d
        rw [List.mem_cons, hmsg d]
        cases hf : firstCounted c P d with
        | some y =>
          rw [firstCounted_snoc_some c P x y d hf]
          simp
        | none =>
          rw [firstCounted_snoc_none c P x d hf]
          by_cases hd : x.Description = d
          · rw [if_pos ⟨hd, hflt⟩]; simp [hd]
          · rw [if_neg (fun h => hd h.1)]
            have hd2 : ¬ d = x.Description := fun h => hd h.symm
            simp [hd2]
      by_cases hmaj : x.Class = "Major"
      · have hmin : ¬ x.Class = "Minor" := by rw [hmaj]; decide
        have hv : c.countDetail v x =
            ⟨v.red + 1, v.yellow, v.alarms ++ [x], x.Description :: v.messages⟩ := by
          simp [alarmCollector.countDetail, hin, hflt, hmaj]
        rw [hv, counterInvariant, hMaj, hMin, if_pos hmaj, if_neg hmin,
          Finset.card_insert_of_not_mem hnotMaj]
        exact ⟨hmsg2, by rw [hred], hyel⟩
      · by_cases hmin : x.Class = "Minor"
        · have hv : c.countDetail v x =
              ⟨v.red, v.yellow + 1, v.alarms ++ [x], x.Description :: v.messages⟩ := by
            simp [alarmCollector.countDetail, hin, hflt, hmin]
          rw [hv, counterInvariant, hMaj, hMin, if_neg hmaj, if_pos hmin,
            Finset.card_insert_of_not_mem hnotMin]
          exact ⟨hmsg2, hred, by rw [hyel]⟩
        · have hv : c.countDetail v x =
              ⟨v.red, v.yellow, v.alarms ++ [x], x.Description :: v.messages⟩ := by
            simp [alarmCollector.countDetail, hin, hflt, hmaj, hmin]
          rw [hv, counterInvariant, hMaj, hMin, if_neg hmaj, if_neg hmin]
          exact ⟨hmsg2, hred, hyel⟩

theorem counterInvariant_foldl (c : alarmCollector) (D : List details) :
    counterInvariant c D (D.foldl c.countDetail ⟨0, 0, [], []⟩) := by
  induction D using List.reverseRecOn with
  | nil =>
    refine ⟨fun d => ?_, rfl, rfl⟩
    simp [firstCounted]
  | append_singleton P x ih =>
    rw [List.foldl_append]
    exact counterInvariant_step c P _ x ih

/-- Red and yellow descriptions together are at most the distinct descriptions. -/
theorem countedDescriptions_card_le (c : alarmCollector) (D : List details) :
    (countedDescriptions c D "Major").card + (countedDescriptions c D "Minor").card
      ≤ (D.map (fun x => x.Description)).toFinset.card := by
  have hdis : Disjoint (countedDescriptions c D "Major") (countedDescriptions c D "Minor") := by
    rw [Finset.disjoint_left]
    intro d h1 h2
    obtain ⟨x, hx, hcx⟩ := (mem_countedDescriptions c D "Major" d).mp h1
    obtain ⟨y, hy, hcy⟩ := (mem_countedDescriptions c D "Minor" d).mp h2
    rw [hx] at hy
    cases hy
    rw [hcx] at hcy
    exact absurd hcy (by decide)
  rw [← Finset.card_union_of_disjoint hdis]
  apply Finset.card_le_card
  apply Finset.union_subset <;> exact Finset.filter_subset _ _

/-- The outer loop on two commands that both decode. -/
theorem countCommands_two {κ : Type} (c : alarmCollector) (client : CollectorClient κ)
    (cmd1 cmd2 : String) (v : counterVars) (k0 k1 k2 : κ) (a1 a2 : result)
    (h1 : client.RunCommandAndParse cmd1 ⟨[]⟩ k0 = (none, a1, k1))
    (h2 : client.RunCommandAndParse cmd2 ⟨[]⟩ k1 = (none, a2, k2)) :
    c.countCommands client [cmd1, cmd2] v k0 =
      (none, (a1.Details ++ a2.Details).foldl c.countDetail v, k2) := by
  simp [alarmCollector.countCommands, h1, h2, List.foldl_append]

/-- C9: when both alarm commands decode, with `D` the details of the two
replies in command order, `alarmCounter` succeeds and returns as `red` the
number of distinct descriptions whose first unfiltered detail in `D` has
class "Major" and as `yellow` the same number for "Minor"; their sum is at
most the number of distinct descriptions in `D`. -/
theorem alarmCounter_counts {κ : Type} (c : alarmCollector) (client : CollectorClient κ)
    (k0 k1 k2 : κ) (a1 a2 : result)
    (h1 : client.RunCommandAndParse
      (if client.IsNetconfEnabled then
        "<get-system-alarm-information></get-system-alarm-information>"
       else "show system alarms") ⟨[]⟩ k0 = (none, a1, k1))
    (h2 : client.RunCommandAndParse
      (if client.IsNetconfEnabled then "<get-alarm-information></get-alarm-information>"
       else "show chassis alarms") ⟨[]⟩ k1 = (none, a2, k2)) :
    ∃ counter alarms, c.alarmCounter client k0 = (Except.ok (counter, alarms), k2) ∧
      counter.red = (countedDescriptions c (a1.Details ++ a2.Details) "Major").card ∧
      counter.yellow = (countedDescriptions c (a1.Details ++ a2.Details) "Minor").card ∧
      counter.red + counter.yellow
        ≤ ((a1.Details ++ a2.Details).map (fun x => x.Description)).toFinset.card := by
  have hinv := counterInvariant_foldl c (a1.Details ++ a2.Details)
  have hle := countedDescriptions_card_le c (a1.Details ++ a2.Details)
  refine ⟨⟨((a1.Details ++ a2.Details).foldl c.countDetail ⟨0, 0, [], []⟩).yellow,
      ((a1.Details ++ a2.Details).foldl c.countDetail ⟨0, 0, [], []⟩).red⟩,
    ((a1.Details ++ a2.Details).foldl c.countDetail ⟨0, 0, [], []⟩).alarms, ?_,
    hinv.2.1, hinv.2.2, ?_⟩
  · cases hn : client.IsNetconfEnabled with
    | true =>
      rw [hn] at h1 h2
      simp only [if_true] at h1 h2
      simp only [alarmCollector.alarmCounter, hn, if_true]
      rw [countCommands_two c client _ _ _ k0 k1 k2 a1 a2 h1 h2]
    | false =>
      rw [hn] at h1 h2
      simp only [Bool.false_eq_true, if_false] at h1 h2
      simp only [alarmCollector.alarmCounter, hn, Bool.false_eq_true, if_false]
      rw [countCommands_two c client _ _ _ k0 k1 k2 a1 a2 h1 h2]
  · show _ + _ ≤ _
    rw [hinv.2.1, hinv.2.2]
    exact hle

/-- Witness of C9: one red and one yellow alarm out of three descriptions. -/
theorem alarmCounter_counts_witness :
    ∃ counter alarms,
      sampleFilter.alarmCounter sampleMixedClient () = (Except.ok (counter, alarms), ()) ∧
      counter.red = 1 ∧ counter.yellow = 1 :=
  have h := alarmCounter_counts sampleFilter sampleMixedClient () () ()
    ⟨[⟨"Minor", "License expired", "System"⟩, ⟨"Major", "Fan failure", "Chassis"⟩]⟩
    ⟨[⟨"Minor", "Fan failure", "Chassis"⟩, ⟨"Minor", "PEM 1 absent", "Chassis"⟩]⟩ rfl rfl
  match h with
  | ⟨counter, alarms, hrun, hred, hyel, _⟩ =>
    ⟨counter, alarms, hrun, hred.trans (by decide), hyel.trans (by decide)⟩

/-- Without a filter every description that is appended is recorded, so
the alarm list never holds a description twice. -/
theorem alarms_nodup_without_filter (c : alarmCollector) (hc : c.filter = none)
    (D : List details) :
    ((D.foldl c.countDetail ⟨0, 0, [], []⟩).alarms.map (fun x => x.Description)).Nodup := by
  have hflt : ∀ x, c.shouldFilterAlarm x = false := by
    intro x; simp [alarmCollector.shouldFilterAlarm, hc]
  have key : ∀ (P : List details),
      ((P.foldl c.countDetail ⟨0, 0, [], []⟩).alarms.map (fun x => x.Description))
        = (P.foldl c.countDetail ⟨0, 0, [], []⟩).messages.reverse ∧
      (P.foldl c.countDetail ⟨0, 0, [], []⟩).messages.Nodup := by
    intro P
    induction P using List.reverseRecOn with
    | nil => exact ⟨rfl, List.nodup_nil⟩
    | append_singleton P x ih =>
      rw [List.foldl_append]
      simp only [List.foldl_cons, List.foldl_nil]
      by_cases hin : x.Description ∈ (P.foldl c.countDetail ⟨0, 0, [], []⟩).messages
      · simpa [alarmCollector.countDetail, hin] using ih
      · have hv : (c.countDetail (P.foldl c.countDetail ⟨0, 0, [], []⟩) x).alarms
              = (P.foldl c.countDetail ⟨0, 0, [], []⟩).alarms ++ [x] ∧
            (c.countDetail (P.foldl c.countDetail ⟨0, 0, [], []⟩) x).messages
              = x.Description :: (P.foldl c.countDetail ⟨0, 0, [], []⟩).messages := by
          simp only [alarmCollector.countDetail, hin, hflt, if_false, Bool.false_eq_true]
          split_ifs <;> exact ⟨rfl, rfl⟩
        rw [hv.1, hv.2]
        exact ⟨by simp [ih.1], List.nodup_cons.mpr ⟨hin, ih.2⟩⟩
  rw [(key D).1]
  exact List.nodup_reverse.mpr (key D).2

/-- C10 (evaluation at the failing input): with a filter that matches
"License expired" and two replies that both report that alarm, the list
`alarmCounter` returns holds the description twice while both counters
are zero, and `Collect` emits the same "junos_alarms_set" metric twice. -/
theorem alarmCounter_filtered_duplicate :
    (sampleFilter.alarmCounter sampleAlarmClient ()).1 =
      Except.ok (⟨0, 0⟩, [⟨"Minor", "License expired", "System"⟩,
        ⟨"Minor", "License expired", "System"⟩]) ∧
    (sampleFilter.Collect sampleAlarmClient ["router1"] ()).1 =
      ([⟨"junos_alarms_yellow_count", 0, ["router1"]⟩,
        ⟨"junos_alarms_red_count", 0, ["router1"]⟩,
        ⟨"junos_alarms_set", 1, ["router1", "Minor", "System", "License expired"]⟩,
        ⟨"junos_alarms_set", 1, ["router1", "Minor", "System", "License expired"]⟩], none) :=
  ⟨rfl, by decide⟩

end JunosExporter
